import Mathlib

/-!
# go-simple-slogger: a shallow embedding of `slogger.go`

The Go package `slogger` fans one log call out to a list of `slog.Handler`s,
either inline (synchronous mode) or through a package-level channel drained by
one background goroutine (asynchronous mode).

Everything the package calls but does not define (package `os`, `path/filepath`,
the two handler implementations, the default `slog` logger) is a collaborator.
Collaborators act on an external world of type `ω`; every call to one of them is
also appended to a ghost `trace`, so that statements such as "the sequence of
`Handle` invocations" can be written down.
-/

namespace SimpleSlogger

/-! ## Package `log/slog`: levels, attributes, records -/

/-- Go type `slog.Level` (`type Level int`). -/
abbrev Level := Int

/-- Constant `slog.LevelDebug`. -/
def LevelDebug : Level := -4

/-- Constant `slog.LevelInfo`. -/
def LevelInfo : Level := 0

/-- Constant `slog.LevelWarn`. -/
def LevelWarn : Level := 4

/-- Constant `slog.LevelError`. -/
def LevelError : Level := 8

/-- Go type `slog.Value`, by kind. A group holds its member attributes as
key/value pairs. -/
inductive Value where
  | string (s : String)
  | int64 (i : Int)
  | uint64 (n : Nat)
  | bool (b : Bool)
  | duration (d : Int)
  | time (t : Int)
  | any (repr : String)
  | group (members : List (String × Value))

/-- Go type `slog.Attr`: a key and a value. -/
structure Attr where
  Key : String
  Val : Value

/-- Go `slog.String(key, value)`. -/
def slogString (key value : String) : Attr := ⟨key, .string value⟩

/-- Go `slog.Int(key, value)`. -/
def slogInt (key : String) (value : Int) : Attr := ⟨key, .int64 value⟩

/-- Go `Value.isEmptyGroup`: the value is of kind group and has no member. -/
def Value.isEmptyGroup : Value → Bool
  | .group [] => true
  | _ => false

/-- Go type `slog.Record`: time, message, level, program counter of the call
site and the attributes in the order they were added. -/
structure Record where
  Time : Int
  Message : String
  Level : Level
  PC : Nat
  attrs : List Attr

/-- Go `slog.NewRecord(t, level, msg, pc)`: a record without attributes. -/
def NewRecord (t : Int) (level : Level) (msg : String) (pc : Nat) : Record :=
  { Time := t, Message := msg, Level := level, PC := pc, attrs := [] }

/-- Go `(*Record).AddAttrs`: "appends the given Attrs to the Record's list of
Attrs. It omits empty groups." -/
def Record.AddAttrs (r : Record) (attrs : List Attr) : Record :=
  { r with attrs := r.attrs ++ attrs.filter (fun a => !a.Val.isEmptyGroup) }

/-! ## The handlers the package is given or builds -/

/-- The fields of `timberjack.Logger` that `createHandlers` sets. -/
structure TimberjackLogger where
  Filename : String
  MaxSize : Int
  MaxBackups : Int
  MaxAge : Int
  deriving DecidableEq

/-- The fields of `slog.HandlerOptions` that `createHandlers` sets. -/
structure HandlerOptions where
  AddSource : Bool
  Level : Level
  deriving DecidableEq

/-- Which handler object a `Handle` call went to. Go compares handlers by
identity; here a built-in handler is identified by what it was constructed
from, any other handler by a number. -/
inductive HandlerRef where
  | json (w : TimberjackLogger) (opts : HandlerOptions)
  | slogor (level : Level) (timeFormat : String) (showSource : Bool)
  | other (n : Nat)
  deriving DecidableEq

/-- Go interface `slog.Handler`, the two methods the package calls.
`Enabled` answers for a level; `Handle` does I/O on the external world and
returns `nil` (`none`) or an error, kept as its `Error()` text. -/
structure Handler (ω : Type) where
  ref : HandlerRef
  Enabled : Level → Bool
  Handle : Record → ω → Option String × ω

/-- Go `type pack struct { handler slog.Handler; record slog.Record }`. -/
structure pack (ω : Type) where
  handler : Handler ω
  record : Record

/-! ## Package `os`, as far as `createHandlers` uses it -/

/-- Error numbers a filesystem call can fail with. -/
inductive Errno where
  | ENOENT
  | ENOTDIR
  | EEXIST
  | ENOTEMPTY
  | EACCES
  | EBUSY
  | EINVAL
  | EISDIR
  | ENAMETOOLONG
  | EIO
  deriving DecidableEq

/-- Go interface `os.FileInfo`, the one method the package calls. -/
structure FileInfo where
  IsDir : Bool
  deriving DecidableEq

/-- Go `os.IsNotExist(err)`: true for the error "file does not exist" only;
false for `nil` and for every other error. -/
def IsNotExist : Option Errno → Bool
  | some .ENOENT => true
  | _ => false

/-- A call to a collaborator, with what it returned. -/
inductive Event where
  | Stat (name : String) (err : Option Errno)
  | MkdirAll (path : String) (perm : Nat) (err : Option Errno)
  | Remove (name : String) (err : Option Errno)
  | Handle (h : HandlerRef) (r : Record) (err : Option String)
  | slogError (msg : String) (args : List Attr)

/-- The collaborators of the package, acting on an external world `ω`.
`Stat` returns Go's pair `(FileInfo, error)`, with `none` for `nil`. -/
structure Env (ω : Type) where
  Stat : String → ω → Option FileInfo × Option Errno
  MkdirAll : String → Nat → ω → Option Errno × ω
  Remove : String → ω → Option Errno × ω
  Join : String → String → String
  Handle : HandlerRef → Record → ω → Option String × ω
  slogError : String → List Attr → ω → ω

/-- Program state: the external world, the contents of the package-level
channel `pipe` as a first-in-first-out queue, and the ghost trace of
collaborator calls made so far. -/
structure State (ω : Type) where
  world : ω
  pipe : List (pack ω)
  trace : List Event

/-- Go `init()`: `pipe = make(chan pack)`, an empty channel, nothing called. -/
def init {ω : Type} (w : ω) : State ω :=
  { world := w, pipe := [], trace := [] }

/-- The call `slog.Error(msg, args...)` on the default logger. -/
def slogError {ω : Type} (env : Env ω) (msg : String) (args : List Attr)
    (s : State ω) : State ω :=
  { s with world := env.slogError msg args s.world,
           trace := s.trace ++ [Event.slogError msg args] }

/-! ## `slogger.go` -/

/-- Go `func handle(h slog.Handler, r slog.Record) error`. -/
def handle {ω : Type} (h : Handler ω) (r : Record) (s : State ω) :
    Option String × State ω :=
  if !h.Enabled r.Level then
    (none, s)
  else
    let res := h.Handle r s.world
    (res.1, { s with world := res.2, trace := s.trace ++ [Event.Handle h.ref r res.1] })

/-- One iteration of the loop body of `asyncHandle`, for the received `pack`. -/
def asyncHandleBody {ω : Type} (env : Env ω) (s : State ω) (p : pack ω) : State ω :=
  match handle p.handler p.record s with
  | (some err, s1) => slogError env "Failed to handle log record" [slogString "error" err] s1
  | (none, s1) => s1

/-- Go `func asyncHandle()`: `for pack := range pipe`, run here until the queue
is empty: the units are received first-in-first-out, one at a time. -/
def asyncHandle {ω : Type} (env : Env ω) (s : State ω) : State ω :=
  s.pipe.foldl (asyncHandleBody env) { s with pipe := [] }

/-- Go `type option struct`. -/
structure option where
  dir : String
  file : String
  maxSize : Int
  maxBackups : Int
  maxAge : Int
  deriving DecidableEq

/-- Go `type optionFunc func(*option)`: the update it performs. -/
abbrev optionFunc := option → option

/-- Go `type slogger struct`. -/
structure slogger (ω : Type) where
  handlers : List (Handler ω)
  async : Bool

/-- Go `func WithDir(dir string) optionFunc`. -/
def WithDir (dir : String) : optionFunc := fun o => { o with dir := dir }

/-- Go `func WithFile(file string) optionFunc`. -/
def WithFile (file : String) : optionFunc := fun o => { o with file := file }

/-- Go `func WithMaxSize(maxSize int) optionFunc`. -/
def WithMaxSize (maxSize : Int) : optionFunc := fun o => { o with maxSize := maxSize }

/-- Go `func WithMaxBackups(maxBackups int) optionFunc`. -/
def WithMaxBackups (maxBackups : Int) : optionFunc := fun o => { o with maxBackups := maxBackups }

/-- Go `func WithMaxAge(maxAge int) optionFunc`. -/
def WithMaxAge (maxAge : Int) : optionFunc := fun o => { o with maxAge := maxAge }

/-- The default options of `createHandlers`. -/
def defaultOption : option :=
  { dir := "logs", file := "app.log", maxSize := 10, maxBackups := 3, maxAge := 7 }

/-- The first part of `createHandlers`: `for _, opt := range opts { opt(option) }`
over the default options. -/
def effectiveOption (opts : List optionFunc) : option :=
  opts.foldl (fun o opt => opt o) defaultOption

/-- The call `os.Stat(name)`. -/
def callStat {ω : Type} (env : Env ω) (name : String) (s : State ω) :
    (Option FileInfo × Option Errno) × State ω :=
  let res := env.Stat name s.world
  (res, { s with trace := s.trace ++ [Event.Stat name res.2] })

/-- The call `os.MkdirAll(path, perm)`; the package discards the error. -/
def callMkdirAll {ω : Type} (env : Env ω) (path : String) (perm : Nat) (s : State ω) :
    State ω :=
  let res := env.MkdirAll path perm s.world
  { s with world := res.2, trace := s.trace ++ [Event.MkdirAll path perm res.1] }

/-- The call `os.Remove(name)`; the package discards the error. -/
def callRemove {ω : Type} (env : Env ω) (name : String) (s : State ω) : State ω :=
  let res := env.Remove name s.world
  { s with world := res.2, trace := s.trace ++ [Event.Remove name res.1] }

/-- How a Go call can end abnormally. -/
inductive Panic where
  | nilDereference
  deriving DecidableEq

/-- Go `time.DateTime`. -/
def timeDateTime : String := "2006-01-02 15:04:05"

/-- The handler `slog.NewJSONHandler(w, opts)`: enabled from `opts.Level` up. -/
def NewJSONHandler {ω : Type} (env : Env ω) (w : TimberjackLogger) (opts : HandlerOptions) :
    Handler ω :=
  { ref := .json w opts,
    Enabled := fun l => decide (opts.Level ≤ l),
    Handle := env.Handle (.json w opts) }

/-- The handler `slogor.NewHandler(os.Stdout, SetLevel(level),
SetTimeFormat(timeFormat), ShowSource())`: enabled from `level` up. -/
def slogorNewHandler {ω : Type} (env : Env ω) (level : Level) (timeFormat : String)
    (showSource : Bool) : Handler ω :=
  { ref := .slogor level timeFormat showSource,
    Enabled := fun l => decide (level ≤ l),
    Handle := env.Handle (.slogor level timeFormat showSource) }

/-- The directory provisioning of `createHandlers` (the `if ... os.Stat` block).
In the `else` branch `fileInfo.IsDir()` is called whatever `err` was; on a `nil`
`fileInfo` that call panics. -/
def provision {ω : Type} (env : Env ω) (dir : String) (s : State ω) :
    Except Panic (State ω) :=
  let res := callStat env dir s
  let fileInfo := res.1.1
  let err := res.1.2
  let s1 := res.2
  if IsNotExist err then
    .ok (callMkdirAll env dir 0o755 s1)
  else
    match fileInfo with
    | none => .error Panic.nilDereference
    | some fi =>
      if !fi.IsDir then
        .ok (callMkdirAll env dir 0o755 (callRemove env dir s1))
      else
        .ok s1

/-- The local `fileHandler` of `createHandlers`: a JSON handler writing to a
`timberjack.Logger` configured from the options, with source and level Warn. -/
def fileHandler {ω : Type} (env : Env ω) (o : option) : Handler ω :=
  NewJSONHandler env
    { Filename := env.Join o.dir o.file, MaxSize := o.maxSize,
      MaxBackups := o.maxBackups, MaxAge := o.maxAge }
    { AddSource := true, Level := LevelWarn }

/-- The local `consoleHandler` of `createHandlers`: a slogor handler on standard
output with level Debug, time format `time.DateTime` and source shown. -/
def consoleHandler {ω : Type} (env : Env ω) : Handler ω :=
  slogorNewHandler env LevelDebug timeDateTime true

/-- The value `createHandlers` returns:
`[]slog.Handler{fileHandler, consoleHandler}`. -/
def builtinHandlers {ω : Type} (env : Env ω) (o : option) : List (Handler ω) :=
  [fileHandler env o, consoleHandler env]

/-- Go `func createHandlers(opts ...optionFunc) []slog.Handler`. -/
def createHandlers {ω : Type} (env : Env ω) (opts : List optionFunc) (s : State ω) :
    Except Panic (List (Handler ω) × State ω) :=
  let o := effectiveOption opts
  match provision env o.dir s with
  | .error p => .error p
  | .ok s1 => .ok (builtinHandlers env o, s1)

/-- Go `func NewSlogger(opts ...optionFunc) *slogger`. -/
def NewSlogger {ω : Type} (env : Env ω) (opts : List optionFunc) (s : State ω) :
    Except Panic (slogger ω × State ω) :=
  match createHandlers env opts s with
  | .error p => .error p
  | .ok (hs, s1) => .ok ({ handlers := hs, async := false }, s1)

/-- Go `func NewAsyncSlogger(opts ...optionFunc) *slogger`. -/
def NewAsyncSlogger {ω : Type} (env : Env ω) (opts : List optionFunc) (s : State ω) :
    Except Panic (slogger ω × State ω) :=
  match createHandlers env opts s with
  | .error p => .error p
  | .ok (hs, s1) => .ok ({ handlers := hs, async := true }, s1)

/-- The body of the loop of `log`, for one handler. -/
def logBody {ω : Type} (env : Env ω) (async : Bool) (record : Record) (s : State ω)
    (handler : Handler ω) : State ω :=
  if async then
    { s with pipe := s.pipe ++ [{ handler := handler, record := record }] }
  else
    match handle handler record s with
    | (some err, s1) => slogError env "Failed to handle log record" [slogString "error" err] s1
    | (none, s1) => s1

/-- Go `func (l *slogger) log(level slog.Level, msg string, attrs ...slog.Attr)`.
The results of `time.Now()` and of `runtime.Callers(3, pcs[:])` are the inputs
`now` and `pc`. -/
def slogger.log {ω : Type} (env : Env ω) (l : slogger ω) (now : Int) (pc : Nat)
    (level : Level) (msg : String) (attrs : List Attr) (s : State ω) : State ω :=
  let record := (NewRecord now level msg pc).AddAttrs attrs
  l.handlers.foldl (logBody env l.async record) s

/-- Go `func (l *slogger) Debug(msg string, attrs ...slog.Attr)`. -/
def slogger.Debug {ω : Type} (env : Env ω) (l : slogger ω) (now : Int) (pc : Nat)
    (msg : String) (attrs : List Attr) (s : State ω) : State ω :=
  l.log env now pc LevelDebug msg attrs s

/-- Go `func (l *slogger) Info(msg string, attrs ...slog.Attr)`. -/
def slogger.Info {ω : Type} (env : Env ω) (l : slogger ω) (now : Int) (pc : Nat)
    (msg : String) (attrs : List Attr) (s : State ω) : State ω :=
  l.log env now pc LevelInfo msg attrs s

/-- Go `func (l *slogger) Warn(msg string, attrs ...slog.Attr)`. -/
def slogger.Warn {ω : Type} (env : Env ω) (l : slogger ω) (now : Int) (pc : Nat)
    (msg : String) (attrs : List Attr) (s : State ω) : State ω :=
  l.log env now pc LevelWarn msg attrs s

/-- Go `func (l *slogger) Error(msg string, attrs ...slog.Attr)`. -/
def slogger.Error {ω : Type} (env : Env ω) (l : slogger ω) (now : Int) (pc : Nat)
    (msg : String) (attrs : List Attr) (s : State ω) : State ω :=
  l.log env now pc LevelError msg attrs s

/-! ## Reading the trace -/

/-- The `Handle` invocations of a trace, in order: which handler, which record. -/
def handleCalls : List Event → List (HandlerRef × Record)
  | [] => []
  | Event.Handle h r _ :: es => (h, r) :: handleCalls es
  | _ :: es => handleCalls es

/-- The error texts returned by the failing `Handle` invocations of a trace. -/
def handleErrors : List Event → List String
  | [] => []
  | Event.Handle _ _ (some e) :: es => e :: handleErrors es
  | _ :: es => handleErrors es

/-- The diagnostic emissions of a trace: message and arguments of each
`slog.Error` call. -/
def diagnostics : List Event → List (String × List Attr)
  | [] => []
  | Event.slogError msg args :: es => (msg, args) :: diagnostics es
  | _ :: es => diagnostics es

/-- The records a given handler was invoked with, in order. -/
def recordsOf (h : HandlerRef) (es : List Event) : List Record :=
  ((handleCalls es).filter (fun c => decide (c.1 = h))).map (fun c => c.2)

/-- A filesystem call of the trace that changes the filesystem returned an error. -/
def Event.failed : Event → Bool
  | Event.MkdirAll _ _ (some _) => true
  | Event.Remove _ (some _) => true
  | _ => false

/-! ## A filesystem for the collaborators of package `os`

The filesystem is that of a Linux process whose working directory is the root
directory, so that a relative path and the absolute path with the same names
are the same file. It holds regular files and directories that the process may
read and change; it has no symbolic links. Path strings are resolved as the
kernel does: name by name, with `.`, `..`, repeated and trailing slashes, and
the limits on the length of a name and of a path. -/

/-- What a path names: a regular file with its content, or a directory. -/
inductive Node where
  | file (content : String)
  | dir
  deriving DecidableEq

/-- An absolute location: the names from the root directory down. -/
abbrev Path := List String

/-- The filesystem: the nodes below the root directory, each under its
location. The first entry for a location is the one in force. -/
abbrev FS := List (Path × Node)

/-- Linux `NAME_MAX`: the longest name of a directory entry, in bytes. -/
def nameMax : Nat := 255

/-- Linux `PATH_MAX`: the size of the buffer a path must fit in with its
terminating zero byte. -/
def pathMax : Nat := 4096

/-- The pieces of a path string between its slashes. -/
def splitSlash : List Char → List (List Char)
  | [] => [[]]
  | c :: cs =>
    if c = '/' then [] :: splitSlash cs
    else
      match splitSlash cs with
      | [] => [[c]]
      | seg :: segs => (c :: seg) :: segs

/-- A path string as the list of its pieces between slashes; the string is
these pieces joined by slashes. An empty piece stands for a leading, doubled
or trailing slash. -/
def segments (name : String) : List String :=
  (splitSlash name.toList).map String.mk

/-- The path string is empty. -/
def isEmptyPath (segs : List String) : Bool :=
  segs.all (fun s => decide (s = "")) && decide (segs.length ≤ 1)

/-- The length of the path string in bytes: its pieces and the slashes
between them. -/
def byteLen (segs : List String) : Nat :=
  (segs.map String.utf8ByteSize).sum + (segs.length - 1)

/-- The errors a path string gives before any lookup: Go refuses a string with
a zero byte (`EINVAL`); the kernel refuses the empty string (`ENOENT`) and a
string that does not fit in `PATH_MAX` bytes (`ENAMETOOLONG`). -/
def pathError (segs : List String) : Option Errno :=
  if segs.any (fun s => s.toList.contains (Char.ofNat 0)) then some Errno.EINVAL
  else if isEmptyPath segs then some Errno.ENOENT
  else if pathMax ≤ byteLen segs then some Errno.ENAMETOOLONG
  else none

/-- The names of a path: its non-empty pieces. -/
def components (segs : List String) : List String :=
  segs.filter (fun s => decide (s ≠ ""))

/-- The path string ends in a slash. -/
def trailingSlash (segs : List String) : Bool :=
  match segs.getLast? with
  | some s => decide (s = "")
  | none => false

/-- The entry in force for a location, if there is one. -/
def FS.find : FS → Path → Option Node
  | [], _ => none
  | (q, n) :: fs, p => if q = p then some n else FS.find fs p

/-- Looking one name up in the directory at `rcur` (a location written last
name first): `.` is the directory itself, `..` its parent (the root is its own
parent), a name longer than `NAME_MAX` is refused, any other name is the entry
of the directory with that name. -/
def FS.step (fs : FS) (rcur : List String) (c : String) :
    Except Errno (List String × Node) :=
  if c = "." then .ok (rcur, Node.dir)
  else if c = ".." then .ok (rcur.tail, Node.dir)
  else if nameMax < c.utf8ByteSize then .error Errno.ENAMETOOLONG
  else
    match FS.find fs (rcur.reverse ++ [c]) with
    | some n => .ok (c :: rcur, n)
    | none => .error Errno.ENOENT

/-- Walking the names `cs` from the node `n` at `rcur`: every name is looked
up in a directory (`ENOTDIR` if the walk stands on a regular file). -/
def FS.walk (fs : FS) : List String → Node → List String →
    Except Errno (List String × Node)
  | rcur, n, [] => .ok (rcur, n)
  | rcur, n, c :: cs =>
    match n with
    | Node.file _ => .error Errno.ENOTDIR
    | Node.dir =>
      match FS.step fs rcur c with
      | .error e => .error e
      | .ok (r1, n1) => FS.walk fs r1 n1 cs

/-- Resolving a path string from the root: the location and node it names. A
path with a trailing slash must name a directory. -/
def FS.resolve (fs : FS) (segs : List String) : Except Errno (Path × Node) :=
  match pathError segs with
  | some e => .error e
  | none =>
    match FS.walk fs [] Node.dir (components segs) with
    | .error e => .error e
    | .ok (r, Node.dir) => .ok (r.reverse, Node.dir)
    | .ok (r, Node.file c) =>
      if trailingSlash segs then .error Errno.ENOTDIR else .ok (r.reverse, Node.file c)

/-- Go `os.Stat(name)` and `os.Lstat(name)` (the same without symbolic links),
on a path given by its pieces. -/
def FS.statSegs (fs : FS) (segs : List String) : Option FileInfo × Option Errno :=
  match FS.resolve fs segs with
  | .ok (_, Node.dir) => (some { IsDir := true }, none)
  | .ok (_, Node.file _) => (some { IsDir := false }, none)
  | .error e => (none, some e)

/-- Go `os.Stat(name)` on the filesystem `fs`. -/
def FS.Stat (name : String) (fs : FS) : Option FileInfo × Option Errno :=
  FS.statSegs fs (segments name)

/-- Go `os.Mkdir(name, perm)` (the system call `mkdir`): the parent is walked
to; the last name must be an ordinary one that is not there yet. Trailing
slashes are allowed. -/
def FS.mkdirSegs (fs : FS) (segs : List String) : Option Errno × FS :=
  match pathError segs with
  | some e => (some e, fs)
  | none =>
    match (components segs).reverse with
    | [] => (some Errno.EEXIST, fs)
    | last :: rinit =>
      match FS.walk fs [] Node.dir rinit.reverse with
      | .error e => (some e, fs)
      | .ok (_, Node.file _) => (some Errno.ENOTDIR, fs)
      | .ok (rcur, Node.dir) =>
        if last = "." ∨ last = ".." then (some Errno.EEXIST, fs)
        else if nameMax < last.utf8ByteSize then (some Errno.ENAMETOOLONG, fs)
        else
          match FS.find fs (rcur.reverse ++ [last]) with
          | some _ => (some Errno.EEXIST, fs)
          | none => (none, fs ++ [((rcur.reverse ++ [last]), Node.dir)])

/-- The parent path `os.MkdirAll` recurses on: the path without its trailing
slashes, its last name and the slash before that name. -/
def parentSegs (segs : List String) : List String :=
  ((segs.reverse.dropWhile (fun s => decide (s = ""))).tail).reverse

/-- The last part of `os.MkdirAll`, given what making the parent returned: an
error of the parent is returned; otherwise `Mkdir` of the path, and an error
of `Mkdir` is overlooked if `Lstat` finds the path to be a directory after
all. -/
def FS.mkdirLast (segs : List String) (made : Option Errno × FS) : Option Errno × FS :=
  match made with
  | (some e, fs1) => (some e, fs1)
  | (none, fs1) =>
    match FS.mkdirSegs fs1 segs with
    | (none, fs2) => (none, fs2)
    | (some e, fs2) =>
      match FS.resolve fs2 segs with
      | .ok (_, Node.dir) => (none, fs2)
      | _ => (some e, fs2)

/-- Go `os.MkdirAll`, with the depth of its recursion bounded by the first
argument. Nothing to do if `Stat` finds a directory, `ENOTDIR` if it finds a
file. If `Stat` fails: `MkdirAll` of the parent path, unless that is the empty
string, then `Mkdir` of the path. -/
def FS.mkdirAllN : Nat → FS → List String → Option Errno × FS
  | 0, fs, segs =>
    match FS.resolve fs segs with
    | .ok (_, Node.dir) => (none, fs)
    | .ok (_, Node.file _) => (some Errno.ENOTDIR, fs)
    | .error _ => FS.mkdirLast segs (none, fs)
  | n + 1, fs, segs =>
    match FS.resolve fs segs with
    | .ok (_, Node.dir) => (none, fs)
    | .ok (_, Node.file _) => (some Errno.ENOTDIR, fs)
    | .error _ =>
      FS.mkdirLast segs
        (if isEmptyPath (parentSegs segs) then (none, fs)
         else FS.mkdirAllN n fs (parentSegs segs))

/-- Go `os.MkdirAll(path, perm)` on the filesystem `fs`; the recursion is at
most as deep as the path has pieces. -/
def FS.MkdirAll (path : String) (_perm : Nat) (fs : FS) : Option Errno × FS :=
  FS.mkdirAllN (segments path).length fs (segments path)

/-- Some entry of the filesystem lies strictly below the location `p`. -/
def FS.hasChild (fs : FS) (p : Path) : Bool :=
  fs.any (fun e => decide (p <+: e.1) && decide (e.1 ≠ p))

/-- The system call `unlink`: removes a regular file. -/
def FS.unlinkSegs (fs : FS) (segs : List String) : Option Errno × FS :=
  match pathError segs with
  | some e => (some e, fs)
  | none =>
    match (components segs).reverse with
    | [] => (some Errno.EISDIR, fs)
    | last :: rinit =>
      match FS.walk fs [] Node.dir rinit.reverse with
      | .error e => (some e, fs)
      | .ok (_, Node.file _) => (some Errno.ENOTDIR, fs)
      | .ok (rcur, Node.dir) =>
        if last = "." ∨ last = ".." then (some Errno.EISDIR, fs)
        else if nameMax < last.utf8ByteSize then (some Errno.ENAMETOOLONG, fs)
        else
          match FS.find fs (rcur.reverse ++ [last]) with
          | none => (some Errno.ENOENT, fs)
          | some Node.dir => (some Errno.EISDIR, fs)
          | some (Node.file _) =>
            if trailingSlash segs then (some Errno.ENOTDIR, fs)
            else (none, fs.filter (fun e => decide (e.1 ≠ (rcur.reverse ++ [last]))))

/-- The system call `rmdir`: removes an empty directory. -/
def FS.rmdirSegs (fs : FS) (segs : List String) : Option Errno × FS :=
  match pathError segs with
  | some e => (some e, fs)
  | none =>
    match (components segs).reverse with
    | [] => (some Errno.EBUSY, fs)
    | last :: rinit =>
      match FS.walk fs [] Node.dir rinit.reverse with
      | .error e => (some e, fs)
      | .ok (_, Node.file _) => (some Errno.ENOTDIR, fs)
      | .ok (rcur, Node.dir) =>
        if last = ".." then (some Errno.ENOTEMPTY, fs)
        else if last = "." then (some Errno.EINVAL, fs)
        else if nameMax < last.utf8ByteSize then (some Errno.ENAMETOOLONG, fs)
        else
          match FS.find fs (rcur.reverse ++ [last]) with
          | none => (some Errno.ENOENT, fs)
          | some (Node.file _) => (some Errno.ENOTDIR, fs)
          | some Node.dir =>
            if FS.hasChild fs (rcur.reverse ++ [last]) then (some Errno.ENOTEMPTY, fs)
            else (none, fs.filter (fun e => decide (e.1 ≠ (rcur.reverse ++ [last]))))

/-- Go `os.Remove(name)` on the filesystem `fs`: `unlink`, and if that fails
`rmdir`; if both fail, the error of `rmdir` unless that is `ENOTDIR`. -/
def FS.Remove (name : String) (fs : FS) : Option Errno × FS :=
  match FS.unlinkSegs fs (segments name) with
  | (none, fs1) => (none, fs1)
  | (some e, _) =>
    match FS.rmdirSegs fs (segments name) with
    | (none, fs1) => (none, fs1)
    | (some e1, _) => (some (if e1 = Errno.ENOTDIR then e else e1), fs)

/-! ## Package `path/filepath` -/

/-- The element stack of `filepath.Clean`, last element first: `.` is dropped;
`..` removes the element before it, is dropped at the root, and is kept at the
start of a relative path. -/
def cleanStack (rooted : Bool) : List String → List String → List String
  | st, [] => st
  | st, c :: cs =>
    if c = "." then cleanStack rooted st cs
    else if c = ".." then
      match st with
      | top :: rest =>
        if top = ".." then cleanStack rooted (c :: st) cs else cleanStack rooted rest cs
      | [] => if rooted then cleanStack rooted [] cs else cleanStack rooted [c] cs
    else cleanStack rooted (c :: st) cs

/-- Go `filepath.Clean(path)` on Unix. -/
def filepathClean (path : String) : String :=
  let rooted := decide (path.toList.head? = some '/')
  let body := String.intercalate "/"
    (cleanStack rooted [] (components (segments path))).reverse
  if rooted then "/" ++ body
  else if body = "" then "."
  else body

/-- Go `filepath.Join(dir, file)`: the cleaned join, from the first non-empty
element on, or the empty string if both are empty. -/
def filepathJoin (dir file : String) : String :=
  if dir = "" then (if file = "" then "" else filepathClean file)
  else filepathClean (dir ++ "/" ++ file)

/-! ## A machine for the collaborators

The handlers' own output is not kept as file content: the machine records
which records each sink was given, and which sinks cannot be written to at
present. -/

/-- The external world of the concrete collaborators. -/
structure Machine where
  fs : FS
  broken : List HandlerRef
  received : List (HandlerRef × Record)
  emitted : List (String × List Attr)

/-- A machine with the given filesystem, every sink in working order, nothing
written yet. -/
def Machine.boot (fs : FS) : Machine :=
  { fs := fs, broken := [], received := [], emitted := [] }

/-- A sink takes a record: an error if it is broken, else the record is added
to what it received. -/
def Machine.Handle (h : HandlerRef) (r : Record) (m : Machine) : Option String × Machine :=
  if h ∈ m.broken then (some "write failed", m)
  else (none, { m with received := m.received ++ [(h, r)] })

/-- The concrete collaborators: package `os` on the machine's filesystem,
`filepath.Join`, sinks that record what they are given, a default logger that
records what it emits. -/
def machineEnv : Env Machine :=
  { Stat := fun name m => FS.Stat name m.fs,
    MkdirAll := fun path perm m =>
      ((FS.MkdirAll path perm m.fs).1, { m with fs := (FS.MkdirAll path perm m.fs).2 }),
    Remove := fun name m =>
      ((FS.Remove name m.fs).1, { m with fs := (FS.Remove name m.fs).2 }),
    Join := filepathJoin,
    Handle := Machine.Handle,
    slogError := fun msg args m => { m with emitted := m.emitted ++ [(msg, args)] } }

/-! ## Describing a caller's option list -/

/-- One option a caller passes: which of the five setters, with its argument. -/
inductive Setter where
  | dir (d : String)
  | file (f : String)
  | maxSize (n : Int)
  | maxBackups (n : Int)
  | maxAge (n : Int)

/-- The `optionFunc` a caller's option stands for. -/
def Setter.toOptionFunc : Setter → optionFunc
  | .dir d => WithDir d
  | .file f => WithFile f
  | .maxSize n => WithMaxSize n
  | .maxBackups n => WithMaxBackups n
  | .maxAge n => WithMaxAge n

/-- The argument of a `WithDir` option. -/
def Setter.dirArg : Setter → Option String
  | .dir d => some d
  | _ => none

/-- The argument of a `WithFile` option. -/
def Setter.fileArg : Setter → Option String
  | .file f => some f
  | _ => none

/-- The argument of a `WithMaxSize` option. -/
def Setter.maxSizeArg : Setter → Option Int
  | .maxSize n => some n
  | _ => none

/-- The argument of a `WithMaxBackups` option. -/
def Setter.maxBackupsArg : Setter → Option Int
  | .maxBackups n => some n
  | _ => none

/-- The argument of a `WithMaxAge` option. -/
def Setter.maxAgeArg : Setter → Option Int
  | .maxAge n => some n
  | _ => none

/-! ## Concrete inputs -/

/-- The logger `NewSlogger()` returns over the concrete collaborators. -/
def sampleLogger : slogger Machine :=
  { handlers := builtinHandlers machineEnv defaultOption, async := false }

/-- The state after `NewSlogger()` on a machine with an empty filesystem:
`logs` was made. -/
def sampleState : State Machine :=
  { world := Machine.boot [(["logs"], Node.dir)],
    pipe := [],
    trace := [Event.Stat "logs" (some Errno.ENOENT), Event.MkdirAll "logs" 0o755 none] }

/-- A filesystem where the name `logs` is taken by a regular file. -/
def fileAtLogs : FS := [(["logs"], Node.file "old content")]

/-- The state after `NewSlogger()` on `fileAtLogs`: the file was removed and a
directory made in its place. -/
def replacedState : State Machine :=
  { world := Machine.boot [(["logs"], Node.dir)],
    pipe := [],
    trace := [Event.Stat "logs" none, Event.Remove "logs" none,
              Event.MkdirAll "logs" 0o755 none] }

/-- A filesystem where `a` is a regular file, so that `a/logs` cannot be
looked up: `stat` fails with `ENOTDIR`. -/
def fileAtA : FS := [(["a"], Node.file "x")]

/-! ## Theorems -/

section Trace

theorem handleCalls_append (a b : List Event) :
    handleCalls (a ++ b) = handleCalls a ++ handleCalls b := by
  induction a with
  | nil => rfl
  | cons e es ih => cases e <;> simp [handleCalls, ih]

theorem handleErrors_append (a b : List Event) :
    handleErrors (a ++ b) = handleErrors a ++ handleErrors b := by
  induction a with
  | nil => rfl
  | cons e es ih =>
    cases e with
    | Handle h r err => cases err <;> simp [handleErrors, ih]
    | _ => simp [handleErrors, ih]

theorem diagnostics_append (a b : List Event) :
    diagnostics (a ++ b) = diagnostics a ++ diagnostics b := by
  induction a with
  | nil => rfl
  | cons e es ih => cases e <;> simp [diagnostics, ih]

theorem recordsOf_append (h : HandlerRef) (a b : List Event) :
    recordsOf h (a ++ b) = recordsOf h a ++ recordsOf h b := by
  simp [recordsOf, handleCalls_append]

end Trace

section Dispatch

variable {ω : Type}

/-- In synchronous mode the loop body of `log` does what the worker does with
the unit made of the same handler and record. -/
theorem logBody_sync_eq (env : Env ω) (r : Record) (s : State ω) (h : Handler ω) :
    logBody env false r s h = asyncHandleBody env s { handler := h, record := r } := by
  simp [logBody, asyncHandleBody]

/-- A dispatch step on a unit whose handler is not enabled changes nothing. -/
theorem asyncHandleBody_disabled (env : Env ω) (s : State ω) (p : pack ω)
    (hen : p.handler.Enabled p.record.Level = false) : asyncHandleBody env s p = s := by
  simp [asyncHandleBody, handle, hen]

/-- A dispatch step on a unit whose handler is enabled: the world is what one
`Handle` call (and, if it failed, one `slog.Error` call) makes of it, and the
trace gains exactly these calls. -/
theorem asyncHandleBody_enabled (env : Env ω) (s : State ω) (p : pack ω)
    (hen : p.handler.Enabled p.record.Level = true) :
    ((asyncHandleBody env s p).world, (asyncHandleBody env s p).trace)
      = (match p.handler.Handle p.record s.world with
        | (some e, w) =>
          (env.slogError "Failed to handle log record" [slogString "error" e] w,
           s.trace ++ [Event.Handle p.handler.ref p.record (some e),
                       Event.slogError "Failed to handle log record" [slogString "error" e]])
        | (none, w) => (w, s.trace ++ [Event.Handle p.handler.ref p.record none])) ∧
    (asyncHandleBody env s p).pipe = s.pipe := by
  unfold asyncHandleBody handle
  rcases hres : p.handler.Handle p.record s.world with ⟨err, w⟩
  cases err <;> simp [hen, hres, slogError]

/-- The world and the trace after a run of dispatch steps over a list of
units: the enabled units, in order, each applied to the world left by the one
before. -/
theorem foldl_asyncHandleBody_state (env : Env ω) (ps : List (pack ω)) (s : State ω) :
    ((ps.foldl (asyncHandleBody env) s).world, (ps.foldl (asyncHandleBody env) s).trace)
      = (ps.filter (fun p => p.handler.Enabled p.record.Level)).foldl
          (fun (a : ω × List Event) (p : pack ω) =>
            match p.handler.Handle p.record a.1 with
            | (some e, w) =>
              (env.slogError "Failed to handle log record" [slogString "error" e] w,
               a.2 ++ [Event.Handle p.handler.ref p.record (some e),
                       Event.slogError "Failed to handle log record" [slogString "error" e]])
            | (none, w) => (w, a.2 ++ [Event.Handle p.handler.ref p.record none]))
          (s.world, s.trace) ∧
    (ps.foldl (asyncHandleBody env) s).pipe = s.pipe := by
  induction ps generalizing s with
  | nil => exact ⟨rfl, rfl⟩
  | cons p ps ih =>
    obtain ⟨h1, h2⟩ := ih (asyncHandleBody env s p)
    cases hen : p.handler.Enabled p.record.Level with
    | false =>
      rw [asyncHandleBody_disabled env s p hen] at h1 h2
      simp only [List.foldl_cons, asyncHandleBody_disabled env s p hen, List.filter_cons, hen]
      exact ⟨h1, h2⟩
    | true =>
      obtain ⟨e1, e2⟩ := asyncHandleBody_enabled env s p hen
      simp only [List.foldl_cons, List.filter_cons, hen, if_true]
      refine ⟨?_, by rw [h2, e2]⟩
      rw [h1, e1]

/-- What a run of dispatch steps over a list of units adds to the trace. -/
theorem foldl_asyncHandleBody_spec (env : Env ω) (ps : List (pack ω)) (s : State ω) :
    ∃ t, (ps.foldl (asyncHandleBody env) s).trace = s.trace ++ t ∧
      (ps.foldl (asyncHandleBody env) s).pipe = s.pipe ∧
      handleCalls t =
        (ps.filter (fun p => p.handler.Enabled p.record.Level)).map
          (fun p => (p.handler.ref, p.record)) ∧
      diagnostics t = (handleErrors t).map
        (fun e => ("Failed to handle log record", [slogString "error" e])) := by
  induction ps generalizing s with
  | nil => exact ⟨[], by simp [handleCalls, diagnostics, handleErrors]⟩
  | cons p ps ih =>
    obtain ⟨t2, ht2, hp2, hc2, hd2⟩ := ih (asyncHandleBody env s p)
    cases hen : p.handler.Enabled p.record.Level with
    | false =>
      rw [asyncHandleBody_disabled env s p hen] at ht2 hp2
      exact ⟨t2, by simpa [List.foldl_cons, asyncHandleBody_disabled env s p hen] using ht2,
        by simpa [List.foldl_cons, asyncHandleBody_disabled env s p hen] using hp2,
        by simpa [List.filter_cons, hen] using hc2, hd2⟩
    | true =>
      obtain ⟨e1, e2⟩ := asyncHandleBody_enabled env s p hen
      rcases hres : p.handler.Handle p.record s.world with ⟨err, w⟩
      rw [hres] at e1
      cases err with
      | none =>
        have htr : (asyncHandleBody env s p).trace
            = s.trace ++ [Event.Handle p.handler.ref p.record none] :=
          congrArg Prod.snd e1
        refine ⟨Event.Handle p.handler.ref p.record none :: t2, ?_, ?_, ?_, ?_⟩
        · simp [List.foldl_cons, ht2, htr]
        · simp [List.foldl_cons, hp2, e2]
        · simp [handleCalls, hc2, List.filter_cons, hen]
        · simp [diagnostics, handleErrors, hd2]
      | some e =>
        have htr : (asyncHandleBody env s p).trace
            = s.trace ++ [Event.Handle p.handler.ref p.record (some e),
                Event.slogError "Failed to handle log record" [slogString "error" e]] :=
          congrArg Prod.snd e1
        refine ⟨Event.Handle p.handler.ref p.record (some e) ::
          Event.slogError "Failed to handle log record" [slogString "error" e] :: t2,
          ?_, ?_, ?_, ?_⟩
        · simp [List.foldl_cons, ht2, htr]
        · simp [List.foldl_cons, hp2, e2]
        · simp [handleCalls, hc2, List.filter_cons, hen]
        · simp [diagnostics, handleErrors, hd2]

/-- The synchronous loop of `log` is a run of dispatch steps over the handlers
paired with the record. -/
theorem foldl_logBody_sync (env : Env ω) (r : Record) (hs : List (Handler ω)) (s : State ω) :
    hs.foldl (logBody env false r) s =
      (hs.map (fun h => ({ handler := h, record := r } : pack ω))).foldl
        (asyncHandleBody env) s := by
  induction hs generalizing s with
  | nil => rfl
  | cons h hs ih => simp [List.foldl_cons, ih, logBody_sync_eq]

/-- The asynchronous loop of `log` appends one unit per handler to the queue. -/
theorem foldl_logBody_async (env : Env ω) (r : Record) (hs : List (Handler ω)) (s : State ω) :
    hs.foldl (logBody env true r) s =
      { s with pipe := s.pipe ++ hs.map (fun h => ({ handler := h, record := r } : pack ω)) } := by
  induction hs generalizing s with
  | nil => simp
  | cons h hs ih => simp [List.foldl_cons, ih, logBody, List.append_assoc]

/-- The enabled units of a delivery are the enabled handlers paired with the
record. -/
theorem filter_units (r : Record) (hs : List (Handler ω)) :
    (hs.map (fun h => ({ handler := h, record := r } : pack ω))).filter
        (fun p => p.handler.Enabled p.record.Level)
      = (hs.filter (fun h => h.Enabled r.Level)).map
          (fun h => ({ handler := h, record := r } : pack ω)) := by
  rw [List.filter_map]
  rfl

/-- The world and the trace after a synchronous `log` with record `r`. -/
theorem foldl_logBody_sync_state (env : Env ω) (r : Record) (hs : List (Handler ω))
    (s : State ω) :
    ((hs.foldl (logBody env false r) s).world, (hs.foldl (logBody env false r) s).trace)
      = (hs.filter (fun h => h.Enabled r.Level)).foldl
          (fun (a : ω × List Event) (h : Handler ω) =>
            match h.Handle r a.1 with
            | (some e, w) =>
              (env.slogError "Failed to handle log record" [slogString "error" e] w,
               a.2 ++ [Event.Handle h.ref r (some e),
                       Event.slogError "Failed to handle log record" [slogString "error" e]])
            | (none, w) => (w, a.2 ++ [Event.Handle h.ref r none]))
          (s.world, s.trace) ∧
    (hs.foldl (logBody env false r) s).pipe = s.pipe := by
  rw [foldl_logBody_sync]
  obtain ⟨h1, h2⟩ := foldl_asyncHandleBody_state env
    (hs.map (fun h => ({ handler := h, record := r } : pack ω))) s
  refine ⟨?_, h2⟩
  rw [h1, filter_units, List.foldl_map]

/-- What a synchronous `log` adds to the state. -/
theorem log_sync_spec (env : Env ω) (hs : List (Handler ω)) (now : Int) (pc : Nat)
    (level : Level) (msg : String) (attrs : List Attr) (s : State ω) :
    ∃ t, (slogger.log env { handlers := hs, async := false } now pc level msg attrs s).trace
          = s.trace ++ t ∧
      (slogger.log env { handlers := hs, async := false } now pc level msg attrs s).pipe
          = s.pipe ∧
      handleCalls t =
        (hs.filter (fun h => h.Enabled level)).map
          (fun h => (h.ref, (NewRecord now level msg pc).AddAttrs attrs)) ∧
      diagnostics t = (handleErrors t).map
        (fun e => ("Failed to handle log record", [slogString "error" e])) := by
  obtain ⟨t, ht, hp, hc, hd⟩ := foldl_asyncHandleBody_spec env
    (hs.map (fun h => ({ handler := h, record := (NewRecord now level msg pc).AddAttrs attrs }
      : pack ω))) s
  refine ⟨t, ?_, ?_, ?_, hd⟩
  · simpa [slogger.log, foldl_logBody_sync] using ht
  · simpa [slogger.log, foldl_logBody_sync] using hp
  · rw [hc, List.filter_map, List.map_map]
    rfl

end Dispatch

section Claims

variable {ω : Type}

/-- C1. In synchronous mode, for every handler list and every record, `log`
runs exactly the handlers of the list that are enabled for the record's level,
each once, with that same record, in list order: the world it leaves is the
world it was given with `Handle` of the first enabled handler applied, then
that of the second, and so on (each failure followed by one diagnostic
emission), the trace gains exactly these calls, the `Handle` invocations read
off the trace are the enabled handlers in list order, and the queue is not
touched. The record is the one `log` builds: the time, level, message and
program counter given, with the attributes in order. -/
theorem log_sync_handle_calls (env : Env ω) (hs : List (Handler ω)) (now : Int) (pc : Nat)
    (level : Level) (msg : String) (attrs : List Attr) (s : State ω) :
    ((slogger.log env { handlers := hs, async := false } now pc level msg attrs s).world,
     (slogger.log env { handlers := hs, async := false } now pc level msg attrs s).trace)
      = (hs.filter (fun h => h.Enabled ((NewRecord now level msg pc).AddAttrs attrs).Level)).foldl
          (fun (a : ω × List Event) (h : Handler ω) =>
            match h.Handle ((NewRecord now level msg pc).AddAttrs attrs) a.1 with
            | (some e, w) =>
              (env.slogError "Failed to handle log record" [slogString "error" e] w,
               a.2 ++ [Event.Handle h.ref ((NewRecord now level msg pc).AddAttrs attrs) (some e),
                       Event.slogError "Failed to handle log record" [slogString "error" e]])
            | (none, w) =>
              (w, a.2 ++ [Event.Handle h.ref ((NewRecord now level msg pc).AddAttrs attrs) none]))
          (s.world, s.trace) ∧
    handleCalls
        (slogger.log env { handlers := hs, async := false } now pc level msg attrs s).trace
      = handleCalls s.trace ++
        (hs.filter (fun h => h.Enabled ((NewRecord now level msg pc).AddAttrs attrs).Level)).map
          (fun h => (h.ref, (NewRecord now level msg pc).AddAttrs attrs)) ∧
    (slogger.log env { handlers := hs, async := false } now pc level msg attrs s).pipe
      = s.pipe ∧
    (NewRecord now level msg pc).AddAttrs attrs
      = { Time := now, Message := msg, Level := level, PC := pc,
          attrs := attrs.filter (fun a => !a.Val.isEmptyGroup) } := by
  obtain ⟨t, ht, hp, hc, _⟩ := log_sync_spec env hs now pc level msg attrs s
  refine ⟨(foldl_logBody_sync_state env _ hs s).1, ?_, hp, rfl⟩
  rw [ht, handleCalls_append, hc]
  rfl

/-- C2. If `h.Enabled` reports false for the level of `r`, `handle` returns
`nil` and leaves the state as it was (no `Handle` call); if it reports true,
`handle` makes exactly one call `h.Handle(r)` and returns its result. The loop
body of the synchronous path and the loop body of the worker both go through
`handle`: disabled, they change nothing; enabled, they add exactly that one
`Handle` invocation. -/
theorem handle_enabled_gate (env : Env ω) (h : Handler ω) (r : Record) (s : State ω) :
    (h.Enabled r.Level = false →
      handle h r s = (none, s) ∧
      logBody env false r s h = s ∧
      asyncHandleBody env s { handler := h, record := r } = s) ∧
    (h.Enabled r.Level = true →
      (handle h r s).1 = (h.Handle r s.world).1 ∧
      (handle h r s).2 =
        { s with world := (h.Handle r s.world).2,
                 trace := s.trace ++ [Event.Handle h.ref r (h.Handle r s.world).1] } ∧
      handleCalls (logBody env false r s h).trace = handleCalls s.trace ++ [(h.ref, r)] ∧
      handleCalls (asyncHandleBody env s { handler := h, record := r }).trace
        = handleCalls s.trace ++ [(h.ref, r)]) := by
  constructor
  · intro hen
    simp [handle, logBody, asyncHandleBody, hen]
  · intro hen
    refine ⟨by simp [handle, hen], by simp [handle, hen], ?_, ?_⟩
    · obtain ⟨t, ht, _, hc, _⟩ := foldl_asyncHandleBody_spec env [{ handler := h, record := r }] s
      rw [logBody_sync_eq]
      simp only [List.foldl_cons, List.foldl_nil] at ht
      rw [ht, handleCalls_append, hc]
      simp [hen]
    · obtain ⟨t, ht, _, hc, _⟩ := foldl_asyncHandleBody_spec env [{ handler := h, record := r }] s
      simp only [List.foldl_cons, List.foldl_nil] at ht
      rw [ht, handleCalls_append, hc]
      simp [hen]

/-- C3. A handler failure neither aborts delivery nor reaches the caller. In
synchronous mode `log` (a total function without an error result) runs every
enabled handler of the list whatever the handlers before it returned: the
world it leaves is the enabled handlers' `Handle` applied in list order, each
failure followed at once by one call of `slog.Error` on the default logger
with the message "Failed to handle log record" and the error text. Read off
the trace: the `Handle` invocations are all the enabled handlers, and the
diagnostic emissions are, one for one and in order, the error texts the
failing `Handle` calls returned, so there are as many emissions as failures.
The worker does the same over the queued units, in queue order, and empties
the queue. -/
theorem handler_failure_isolated (env : Env ω) (hs : List (Handler ω)) (now : Int) (pc : Nat)
    (level : Level) (msg : String) (attrs : List Attr) (s : State ω) :
    (((slogger.log env { handlers := hs, async := false } now pc level msg attrs s).world,
      (slogger.log env { handlers := hs, async := false } now pc level msg attrs s).trace)
      = (hs.filter (fun h => h.Enabled ((NewRecord now level msg pc).AddAttrs attrs).Level)).foldl
          (fun (a : ω × List Event) (h : Handler ω) =>
            match h.Handle ((NewRecord now level msg pc).AddAttrs attrs) a.1 with
            | (some e, w) =>
              (env.slogError "Failed to handle log record" [slogString "error" e] w,
               a.2 ++ [Event.Handle h.ref ((NewRecord now level msg pc).AddAttrs attrs) (some e),
                       Event.slogError "Failed to handle log record" [slogString "error" e]])
            | (none, w) =>
              (w, a.2 ++ [Event.Handle h.ref ((NewRecord now level msg pc).AddAttrs attrs) none]))
          (s.world, s.trace) ∧
     ∃ t,
      (slogger.log env { handlers := hs, async := false } now pc level msg attrs s).trace
        = s.trace ++ t ∧
      handleCalls t =
        (hs.filter (fun h => h.Enabled level)).map
          (fun h => (h.ref, (NewRecord now level msg pc).AddAttrs attrs)) ∧
      diagnostics t = (handleErrors t).map
        (fun e => ("Failed to handle log record", [slogString "error" e])) ∧
      (diagnostics t).length = (handleErrors t).length) ∧
    (((asyncHandle env s).world, (asyncHandle env s).trace)
      = (s.pipe.filter (fun p => p.handler.Enabled p.record.Level)).foldl
          (fun (a : ω × List Event) (p : pack ω) =>
            match p.handler.Handle p.record a.1 with
            | (some e, w) =>
              (env.slogError "Failed to handle log record" [slogString "error" e] w,
               a.2 ++ [Event.Handle p.handler.ref p.record (some e),
                       Event.slogError "Failed to handle log record" [slogString "error" e]])
            | (none, w) => (w, a.2 ++ [Event.Handle p.handler.ref p.record none]))
          (s.world, s.trace) ∧
     ∃ t,
      (asyncHandle env s).trace = s.trace ++ t ∧
      (asyncHandle env s).pipe = [] ∧
      handleCalls t =
        (s.pipe.filter (fun p => p.handler.Enabled p.record.Level)).map
          (fun p => (p.handler.ref, p.record)) ∧
      diagnostics t = (handleErrors t).map
        (fun e => ("Failed to handle log record", [slogString "error" e])) ∧
      (diagnostics t).length = (handleErrors t).length) := by
  constructor
  · obtain ⟨t, ht, _, hc, hd⟩ := log_sync_spec env hs now pc level msg attrs s
    exact ⟨(foldl_logBody_sync_state env _ hs s).1, t, ht, hc, hd, by rw [hd, List.length_map]⟩
  · obtain ⟨t, ht, hp, hc, hd⟩ := foldl_asyncHandleBody_spec env s.pipe { s with pipe := [] }
    exact ⟨(foldl_asyncHandleBody_state env s.pipe { s with pipe := [] }).1,
      t, ht, hp, hc, hd, by rw [hd, List.length_map]⟩

/-- C4. In asynchronous mode `log` appends to the queue exactly one unit per
handler, in handler-list order, all with the same record, and does nothing
else (no handler is invoked, the world and the trace are as before). The
worker drains the queue first-in-first-out: the world it leaves is the world
it found with `Handle` of the enabled units applied in queue order (each
failure followed by one diagnostic emission), the trace gains exactly these
calls, and the queue is empty. So whenever the units of one delivery sit in
the queue in handler-list order, interleaved in any way with other units, the
invocations of that delivery occur in handler-list order among the invocations
of the drain; and `log` followed by a drain runs, after the units queued
before, the enabled handlers of the list in list order. -/
theorem log_async_enqueue_order (env : Env ω) (hs : List (Handler ω)) (now : Int) (pc : Nat)
    (level : Level) (msg : String) (attrs : List Attr) (s : State ω) :
    slogger.log env { handlers := hs, async := true } now pc level msg attrs s
      = { s with pipe := s.pipe ++ hs.map (fun h =>
            ({ handler := h, record := (NewRecord now level msg pc).AddAttrs attrs } : pack ω)) } ∧
    (slogger.log env { handlers := hs, async := true } now pc level msg attrs s).pipe.length
      = s.pipe.length + hs.length ∧
    (∀ q : State ω,
      ((asyncHandle env q).world, (asyncHandle env q).trace)
        = (q.pipe.filter (fun p => p.handler.Enabled p.record.Level)).foldl
            (fun (a : ω × List Event) (p : pack ω) =>
              match p.handler.Handle p.record a.1 with
              | (some e, w) =>
                (env.slogError "Failed to handle log record" [slogString "error" e] w,
                 a.2 ++ [Event.Handle p.handler.ref p.record (some e),
                         Event.slogError "Failed to handle log record" [slogString "error" e]])
              | (none, w) => (w, a.2 ++ [Event.Handle p.handler.ref p.record none]))
            (q.world, q.trace) ∧
      (asyncHandle env q).pipe = [] ∧
      handleCalls (asyncHandle env q).trace = handleCalls q.trace ++
        (q.pipe.filter (fun p => p.handler.Enabled p.record.Level)).map
          (fun p => (p.handler.ref, p.record))) ∧
    (∀ q : State ω,
      List.Sublist (hs.map (fun h =>
        ({ handler := h, record := (NewRecord now level msg pc).AddAttrs attrs } : pack ω)))
        q.pipe →
      ∃ t, (asyncHandle env q).trace = q.trace ++ t ∧
        List.Sublist
          ((hs.filter (fun h => h.Enabled level)).map
            (fun h => (h.ref, (NewRecord now level msg pc).AddAttrs attrs)))
          (handleCalls t)) ∧
    ((asyncHandle env
        (slogger.log env { handlers := hs, async := true } now pc level msg attrs s)).world,
     (asyncHandle env
        (slogger.log env { handlers := hs, async := true } now pc level msg attrs s)).trace)
      = ((s.pipe ++ hs.map (fun h =>
            ({ handler := h, record := (NewRecord now level msg pc).AddAttrs attrs } : pack ω))).filter
            (fun p => p.handler.Enabled p.record.Level)).foldl
          (fun (a : ω × List Event) (p : pack ω) =>
            match p.handler.Handle p.record a.1 with
            | (some e, w) =>
              (env.slogError "Failed to handle log record" [slogString "error" e] w,
               a.2 ++ [Event.Handle p.handler.ref p.record (some e),
                       Event.slogError "Failed to handle log record" [slogString "error" e]])
            | (none, w) => (w, a.2 ++ [Event.Handle p.handler.ref p.record none]))
          (s.world, s.trace) ∧
    handleCalls (asyncHandle env
        (slogger.log env { handlers := hs, async := true } now pc level msg attrs s)).trace
      = handleCalls s.trace ++
        (s.pipe.filter (fun p => p.handler.Enabled p.record.Level)).map
          (fun p => (p.handler.ref, p.record)) ++
        (hs.filter (fun h => h.Enabled level)).map
          (fun h => (h.ref, (NewRecord now level msg pc).AddAttrs attrs)) := by
  have hlog : slogger.log env { handlers := hs, async := true } now pc level msg attrs s
      = { s with pipe := s.pipe ++ hs.map (fun h =>
            ({ handler := h, record := (NewRecord now level msg pc).AddAttrs attrs } : pack ω)) } := by
    simp [slogger.log, foldl_logBody_async]
  have hdrain : ∀ q : State ω,
      handleCalls (asyncHandle env q).trace = handleCalls q.trace ++
        (q.pipe.filter (fun p => p.handler.Enabled p.record.Level)).map
          (fun p => (p.handler.ref, p.record)) := by
    intro q
    obtain ⟨t, ht, _, hc, _⟩ := foldl_asyncHandleBody_spec env q.pipe { q with pipe := [] }
    have ht' : (asyncHandle env q).trace = q.trace ++ t := ht
    rw [ht', handleCalls_append, hc]
  have hfm : (hs.filter (fun h => h.Enabled level)).map
        (fun h => (h.ref, (NewRecord now level msg pc).AddAttrs attrs))
      = ((hs.map (fun h =>
            ({ handler := h, record := (NewRecord now level msg pc).AddAttrs attrs } : pack ω))).filter
          (fun p => p.handler.Enabled p.record.Level)).map
          (fun p => (p.handler.ref, p.record)) := by
    rw [List.filter_map, List.map_map]
    rfl
  refine ⟨hlog, ?_, ?_, ?_, ?_, ?_⟩
  · rw [hlog]
    simp
  · intro q
    exact ⟨(foldl_asyncHandleBody_state env q.pipe { q with pipe := [] }).1,
      (foldl_asyncHandleBody_state env q.pipe { q with pipe := [] }).2, hdrain q⟩
  · intro q hsub
    obtain ⟨t, ht, _, hc, _⟩ := foldl_asyncHandleBody_spec env q.pipe { q with pipe := [] }
    refine ⟨t, ht, ?_⟩
    rw [hc, hfm]
    exact (hsub.filter _).map _
  · rw [hlog]
    exact (foldl_asyncHandleBody_state env _ _).1
  · rw [hdrain, hlog, hfm]
    simp [List.filter_append, List.map_append, List.append_assoc]

end Claims

section Filesystem

theorem FS.find_append (fs : FS) (p q : Path) (n : Node) :
    FS.find (fs ++ [(p, n)]) q =
      match FS.find fs q with
      | some x => some x
      | none => if p = q then some n else none := by
  induction fs with
  | nil => simp [FS.find]
  | cons e fs ih =>
    obtain ⟨q1, n1⟩ := e
    by_cases h : q1 = q
    · simp [FS.find, h]
    · simp [FS.find, h, ih]

theorem FS.find_append_of_some (fs : FS) (p q : Path) (n x : Node)
    (h : FS.find fs q = some x) : FS.find (fs ++ [(p, n)]) q = some x := by
  rw [FS.find_append, h]

theorem FS.find_append_self (fs : FS) (p : Path) (n : Node)
    (h : FS.find fs p = none) : FS.find (fs ++ [(p, n)]) p = some n := by
  rw [FS.find_append, h]
  simp

/-- A name that was found is found, as the same node, after an entry is added
at the end. -/
theorem FS.step_append_of_ok (fs : FS) (p : Path) (m : Node) (rcur : List String)
    (c : String) (x : List String × Node) (h : FS.step fs rcur c = .ok x) :
    FS.step (fs ++ [(p, m)]) rcur c = .ok x := by
  unfold FS.step at h ⊢
  by_cases h1 : c = "."
  · simpa [h1] using h
  · by_cases h2 : c = ".."
    · simpa [h1, h2] using h
    · by_cases h3 : nameMax < c.utf8ByteSize
      · simp [h1, h2, h3] at h
      · simp only [h1, h2, h3, if_false] at h ⊢
        cases hf : FS.find fs (rcur.reverse ++ [c]) with
        | none => simp [hf] at h
        | some n =>
          rw [FS.find_append_of_some fs p _ m n hf]
          simpa [hf] using h

/-- A walk that succeeded succeeds, with the same result, after an entry is
added at the end. -/
theorem FS.walk_append_of_ok (fs : FS) (p : Path) (m : Node) (cs : List String)
    (rcur : List String) (n : Node) (x : List String × Node)
    (h : FS.walk fs rcur n cs = .ok x) : FS.walk (fs ++ [(p, m)]) rcur n cs = .ok x := by
  induction cs generalizing rcur n with
  | nil => simpa [FS.walk] using h
  | cons c cs ih =>
    cases n with
    | file content => simp [FS.walk] at h
    | dir =>
      simp only [FS.walk] at h ⊢
      cases hs : FS.step fs rcur c with
      | error e => simp [hs] at h
      | ok y =>
        obtain ⟨r1, n1⟩ := y
        rw [FS.step_append_of_ok fs p m rcur c (r1, n1) hs]
        simp only [hs] at h
        exact ih r1 n1 h

/-- Walking a list of names is walking its first part and then the rest. -/
theorem FS.walk_append (fs : FS) (a b : List String) (rcur : List String) (n : Node) :
    FS.walk fs rcur n (a ++ b) =
      match FS.walk fs rcur n a with
      | .error e => .error e
      | .ok (r1, n1) => FS.walk fs r1 n1 b := by
  induction a generalizing rcur n with
  | nil => simp [FS.walk]
  | cons c cs ih =>
    cases n with
    | file content => simp [FS.walk]
    | dir =>
      simp only [List.cons_append, FS.walk]
      cases hs : FS.step fs rcur c with
      | error e => simp
      | ok y =>
        obtain ⟨r1, n1⟩ := y
        simp only []
        exact ih r1 n1

/-- A walk from a regular file gets nowhere but to the file itself. -/
theorem FS.walk_file (fs : FS) (rcur : List String) (content : String) (cs : List String)
    (x : List String × Node) (h : FS.walk fs rcur (Node.file content) cs = .ok x) :
    cs = [] ∧ x = (rcur, Node.file content) := by
  cases cs with
  | nil =>
    simp only [FS.walk, Except.ok.injEq] at h
    exact ⟨rfl, h.symm⟩
  | cons c cs => simp [FS.walk] at h

/-- If a walk ends on a directory, so does the walk of every initial part of
the names: every directory on the way is there. -/
theorem FS.walk_initial_dir (fs : FS) (a b : List String) (rcur r2 : List String)
    (h : FS.walk fs rcur Node.dir (a ++ b) = .ok (r2, Node.dir)) :
    ∃ r1, FS.walk fs rcur Node.dir a = .ok (r1, Node.dir) := by
  rw [FS.walk_append] at h
  cases ha : FS.walk fs rcur Node.dir a with
  | error e => simp [ha] at h
  | ok y =>
    obtain ⟨r1, n1⟩ := y
    simp only [ha] at h
    cases n1 with
    | dir => exact ⟨r1, rfl⟩
    | file content =>
      obtain ⟨_, hx⟩ := FS.walk_file fs r1 content b _ h
      simp at hx

/-- The three shapes of the result of `Stat`. -/
theorem FS.statSegs_cases (fs : FS) (segs : List String) :
    (∃ p, FS.resolve fs segs = .ok (p, Node.dir) ∧
      FS.statSegs fs segs = (some { IsDir := true }, none)) ∨
    (∃ p c, FS.resolve fs segs = .ok (p, Node.file c) ∧
      FS.statSegs fs segs = (some { IsDir := false }, none)) ∨
    (∃ e, FS.resolve fs segs = .error e ∧ FS.statSegs fs segs = (none, some e)) := by
  unfold FS.statSegs
  cases h : FS.resolve fs segs with
  | error e => right; right; exact ⟨e, rfl, rfl⟩
  | ok x =>
    obtain ⟨p, n⟩ := x
    cases n with
    | dir => left; exact ⟨p, rfl, rfl⟩
    | file c => right; left; exact ⟨p, c, rfl, rfl⟩

theorem FS.statSegs_of_dir (fs : FS) (segs : List String) (p : Path)
    (h : FS.resolve fs segs = .ok (p, Node.dir)) :
    FS.statSegs fs segs = (some { IsDir := true }, none) := by
  simp [FS.statSegs, h]

/-- A resolved path names a directory exactly when the walk of its names ends
on one. -/
theorem FS.resolve_dir_iff (fs : FS) (segs : List String) (p : Path) :
    FS.resolve fs segs = .ok (p, Node.dir) ↔
      pathError segs = none ∧
      ∃ r, FS.walk fs [] Node.dir (components segs) = .ok (r, Node.dir) ∧ p = r.reverse := by
  unfold FS.resolve
  cases hpe : pathError segs with
  | some e => simp
  | none =>
    cases hw : FS.walk fs [] Node.dir (components segs) with
    | error e => simp
    | ok x =>
      obtain ⟨r, n⟩ := x
      cases n with
      | dir =>
        simp only [Except.ok.injEq, Prod.mk.injEq, and_true, true_and]
        constructor
        · intro h; exact ⟨r, rfl, h.symm⟩
        · rintro ⟨r1, h1, h2⟩
          rw [h2, h1]
      | file c =>
        by_cases ht : trailingSlash segs = true
        · simp [ht]
        · simp [ht]

/-- The names of a path whose reversed list of names starts with `last`. -/
theorem components_of_reverse (segs : List String) (last : String) (rinit : List String)
    (h : (components segs).reverse = last :: rinit) :
    components segs = rinit.reverse ++ [last] := by
  have := congrArg List.reverse h
  simpa using this

/-- A successful `mkdir` adds the directory as one new entry, and the path
then names a directory. -/
theorem FS.mkdirSegs_ok (fs fs2 : FS) (segs : List String)
    (h : FS.mkdirSegs fs segs = (none, fs2)) :
    ∃ p, FS.resolve fs2 segs = .ok (p, Node.dir) ∧ fs2 = fs ++ [(p, Node.dir)] := by
  unfold FS.mkdirSegs at h
  cases hpe : pathError segs with
  | some e => simp [hpe] at h
  | none =>
    simp only [hpe] at h
    cases hc : (components segs).reverse with
    | nil => simp [hc] at h
    | cons last rinit =>
      simp only [hc] at h
      cases hw : FS.walk fs [] Node.dir rinit.reverse with
      | error e => simp [hw] at h
      | ok x =>
        obtain ⟨rcur, n⟩ := x
        cases n with
        | file c => simp [hw] at h
        | dir =>
          simp only [hw] at h
          by_cases h1 : last = "." ∨ last = ".."
          · simp [h1] at h
          · by_cases h2 : nameMax < last.utf8ByteSize
            · simp [h1, h2] at h
            · simp only [h1, h2, if_false] at h
              cases hf : FS.find fs (rcur.reverse ++ [last]) with
              | some y => simp [hf] at h
              | none =>
                simp only [hf, Prod.mk.injEq, true_and] at h
                subst h
                refine ⟨(rcur.reverse ++ [last]), ?_, rfl⟩
                rw [FS.resolve_dir_iff]
                refine ⟨hpe, last :: rcur, ?_, by simp⟩
                rw [components_of_reverse segs last rinit hc, FS.walk_append,
                  FS.walk_append_of_ok fs _ Node.dir rinit.reverse [] Node.dir (rcur, Node.dir) hw]
                have hne1 : ¬ last = "." := fun hh => h1 (Or.inl hh)
                have hne2 : ¬ last = ".." := fun hh => h1 (Or.inr hh)
                simp only [FS.walk, FS.step, hne1, hne2, h2, if_false,
                  FS.find_append_self fs _ Node.dir hf]

/-- Whatever `mkdir` returns, the entries it leaves are the old ones and
directories. -/
theorem FS.mkdirSegs_mem (fs : FS) (segs : List String) (e : Path × Node)
    (he : e ∈ (FS.mkdirSegs fs segs).2) : e ∈ fs ∨ e.2 = Node.dir := by
  by_cases hok : (FS.mkdirSegs fs segs).1 = none
  · obtain ⟨p, _, hfs⟩ := FS.mkdirSegs_ok fs (FS.mkdirSegs fs segs).2 segs (Prod.ext hok rfl)
    rw [hfs] at he
    simp only [List.mem_append, List.mem_singleton] at he
    rcases he with he | he
    · exact Or.inl he
    · right; rw [he]
  · left
    have hfs : (FS.mkdirSegs fs segs).2 = fs := by
      unfold FS.mkdirSegs at hok ⊢
      cases hpe : pathError segs with
      | some e => rfl
      | none =>
        simp only [hpe] at hok ⊢
        cases hc : (components segs).reverse with
        | nil => rfl
        | cons last rinit =>
          simp only [hc] at hok ⊢
          cases hw : FS.walk fs [] Node.dir rinit.reverse with
          | error e => rfl
          | ok x =>
            obtain ⟨rcur, n⟩ := x
            cases n with
            | file c => rfl
            | dir =>
              simp only [hw] at hok ⊢
              by_cases h1 : last = "." ∨ last = ".."
              · simp [h1]
              · by_cases h2 : nameMax < last.utf8ByteSize
                · simp [h1, h2]
                · simp only [h1, h2, if_false] at hok ⊢
                  cases hf : FS.find fs (rcur.reverse ++ [last]) with
                  | some y => rfl
                  | none => simp [hf] at hok
    rw [hfs] at he
    exact he

/-- If the last part of `MkdirAll` returns no error, the path names a
directory. -/
theorem FS.mkdirLast_ok (segs : List String) (made : Option Errno × FS)
    (h : (FS.mkdirLast segs made).1 = none) :
    ∃ p, FS.resolve (FS.mkdirLast segs made).2 segs = .ok (p, Node.dir) := by
  unfold FS.mkdirLast at h ⊢
  obtain ⟨e1, fs1⟩ := made
  cases e1 with
  | some e => simp at h
  | none =>
    simp only [] at h ⊢
    rcases hm : FS.mkdirSegs fs1 segs with ⟨e2, fs2⟩
    cases e2 with
    | none =>
      obtain ⟨p, hp, _⟩ := FS.mkdirSegs_ok fs1 fs2 segs hm
      exact ⟨p, by simpa [hm] using hp⟩
    | some e =>
      simp only [hm] at h ⊢
      cases hr2 : FS.resolve fs2 segs with
      | error e3 => simp [hr2] at h
      | ok y =>
        obtain ⟨p, n⟩ := y
        cases n with
        | dir => exact ⟨p, by simp [hr2]⟩
        | file c => simp [hr2] at h

/-- The entries the last part of `MkdirAll` leaves are those it was given and
directories. -/
theorem FS.mkdirLast_mem (segs : List String) (made : Option Errno × FS) (e : Path × Node)
    (he : e ∈ (FS.mkdirLast segs made).2) : e ∈ made.2 ∨ e.2 = Node.dir := by
  unfold FS.mkdirLast at he
  obtain ⟨e1, fs1⟩ := made
  cases e1 with
  | some e3 => exact Or.inl (by simpa using he)
  | none =>
    simp only [] at he
    rcases hm : FS.mkdirSegs fs1 segs with ⟨e2, fs2⟩
    have hmem := FS.mkdirSegs_mem fs1 segs e
    rw [hm] at hmem
    cases e2 with
    | none => exact hmem (by simpa [hm] using he)
    | some e3 =>
      simp only [hm] at he
      cases hr2 : FS.resolve fs2 segs with
      | error e4 => exact hmem (by simpa [hr2] using he)
      | ok y =>
        obtain ⟨p, n⟩ := y
        cases n <;> exact hmem (by simpa [hr2] using he)

/-- After a successful `MkdirAll` the path names a directory. -/
theorem FS.mkdirAllN_ok (fuel : Nat) (fs : FS) (segs : List String)
    (h : (FS.mkdirAllN fuel fs segs).1 = none) :
    ∃ p, FS.resolve (FS.mkdirAllN fuel fs segs).2 segs = .ok (p, Node.dir) := by
  cases fuel with
  | zero =>
    simp only [FS.mkdirAllN] at h ⊢
    cases hr : FS.resolve fs segs with
    | ok x =>
      obtain ⟨p, n⟩ := x
      cases n with
      | dir => exact ⟨p, by simp [hr]⟩
      | file c => simp [hr] at h
    | error err =>
      simp only [hr] at h ⊢
      exact FS.mkdirLast_ok segs _ h
  | succ n =>
    simp only [FS.mkdirAllN] at h ⊢
    cases hr : FS.resolve fs segs with
    | ok x =>
      obtain ⟨p, n⟩ := x
      cases n with
      | dir => exact ⟨p, by simp [hr]⟩
      | file c => simp [hr] at h
    | error err =>
      simp only [hr] at h ⊢
      exact FS.mkdirLast_ok segs _ h

/-- Whatever `MkdirAll` returns, the entries it leaves are the old ones and
directories: it never writes a regular file. -/
theorem FS.mkdirAllN_mem (fuel : Nat) (fs : FS) (segs : List String) (e : Path × Node)
    (he : e ∈ (FS.mkdirAllN fuel fs segs).2) : e ∈ fs ∨ e.2 = Node.dir := by
  induction fuel generalizing segs with
  | zero =>
    simp only [FS.mkdirAllN] at he
    cases hr : FS.resolve fs segs with
    | ok x =>
      obtain ⟨p, n⟩ := x
      cases n <;> simp [hr] at he <;> exact Or.inl he
    | error err =>
      simp only [hr] at he
      exact FS.mkdirLast_mem segs _ e he
  | succ n ih =>
    simp only [FS.mkdirAllN] at he
    cases hr : FS.resolve fs segs with
    | ok x =>
      obtain ⟨p, n⟩ := x
      cases n <;> simp [hr] at he <;> exact Or.inl he
    | error err =>
      simp only [hr] at he
      rcases FS.mkdirLast_mem segs _ e he with h1 | h1
      · by_cases hp : isEmptyPath (parentSegs segs) = true
        · simp only [hp, if_true] at h1
          exact Or.inl h1
        · simp only [hp] at h1
          exact ih (parentSegs segs) h1
      · exact Or.inr h1

end Filesystem

section FilesystemCalls

/-- The parent path `MkdirAll` recurses on has fewer pieces than the path. -/
theorem parentSegs_length_lt (segs : List String)
    (h : isEmptyPath (parentSegs segs) = false) : (parentSegs segs).length < segs.length := by
  unfold parentSegs at h ⊢
  rw [List.length_reverse]
  have hle : (segs.reverse.dropWhile (fun s => decide (s = ""))).length ≤ segs.length := by
    have := List.Sublist.length_le
      (List.dropWhile_sublist (fun s => decide (s = "")) (l := segs.reverse))
    simpa using this
  cases hd : segs.reverse.dropWhile (fun s => decide (s = "")) with
  | nil =>
    rw [hd] at h
    simp [isEmptyPath] at h
  | cons x xs =>
    rw [hd] at hle
    simp only [List.tail_cons]
    simp only [List.length_cons] at hle
    omega

/-- The bound on the recursion of `MkdirAll` is never reached: any bound of at
least the number of pieces of the path gives the same result. -/
theorem FS.mkdirAllN_fuel (n m : Nat) (fs : FS) (segs : List String)
    (hn : segs.length ≤ n) (hm : segs.length ≤ m) :
    FS.mkdirAllN n fs segs = FS.mkdirAllN m fs segs := by
  induction n generalizing m segs with
  | zero =>
    have hnil : segs = [] := List.eq_nil_of_length_eq_zero (Nat.le_zero.mp hn)
    subst hnil
    cases m with
    | zero => rfl
    | succ k => simp [FS.mkdirAllN, parentSegs, isEmptyPath]
  | succ k ih =>
    cases m with
    | zero =>
      have hnil : segs = [] := List.eq_nil_of_length_eq_zero (Nat.le_zero.mp hm)
      subst hnil
      simp [FS.mkdirAllN, parentSegs, isEmptyPath]
    | succ j =>
      simp only [FS.mkdirAllN]
      cases hp : isEmptyPath (parentSegs segs) with
      | true => rfl
      | false =>
        have hlt := parentSegs_length_lt segs hp
        rw [ih j (parentSegs segs) (by omega) (by omega)]

/-- After a successful `MkdirAll` the path is a directory, and so is every
directory on the way to it. -/
theorem FS.MkdirAll_ok (path : String) (perm : Nat) (fs : FS)
    (h : (FS.MkdirAll path perm fs).1 = none) :
    FS.Stat path (FS.MkdirAll path perm fs).2 = (some { IsDir := true }, none) ∧
    ∀ pre, pre <+: components (segments path) →
      ∃ r, FS.walk (FS.MkdirAll path perm fs).2 [] Node.dir pre = .ok (r, Node.dir) := by
  unfold FS.MkdirAll at h ⊢
  obtain ⟨p, hp⟩ := FS.mkdirAllN_ok _ fs (segments path) h
  refine ⟨FS.statSegs_of_dir _ _ p hp, ?_⟩
  rintro pre ⟨suf, hsuf⟩
  obtain ⟨_, r, hw, _⟩ := (FS.resolve_dir_iff _ _ p).mp hp
  rw [← hsuf] at hw
  exact FS.walk_initial_dir _ pre suf [] r hw

/-- The entries `MkdirAll` leaves are the old ones and directories. -/
theorem FS.MkdirAll_mem (path : String) (perm : Nat) (fs : FS) (e : Path × Node)
    (he : e ∈ (FS.MkdirAll path perm fs).2) : e ∈ fs ∨ e.2 = Node.dir :=
  FS.mkdirAllN_mem _ fs (segments path) e he

/-- Where a path names a regular file, `unlink` removes every entry at its
location. -/
theorem FS.unlinkSegs_file (fs : FS) (segs : List String) (p : Path) (c : String)
    (h : FS.resolve fs segs = .ok (p, Node.file c)) :
    FS.unlinkSegs fs segs = (none, fs.filter (fun e => decide (e.1 ≠ p))) := by
  unfold FS.resolve at h
  unfold FS.unlinkSegs
  cases hpe : pathError segs with
  | some e => simp [hpe] at h
  | none =>
    simp only [hpe] at h ⊢
    cases hw : FS.walk fs [] Node.dir (components segs) with
    | error e => simp [hw] at h
    | ok x =>
      obtain ⟨r, n⟩ := x
      cases n with
      | dir => simp [hw] at h
      | file c1 =>
        simp only [hw] at h
        by_cases ht : trailingSlash segs = true
        · simp [ht] at h
        · simp only [ht, Bool.false_eq_true, if_false, Except.ok.injEq, Prod.mk.injEq,
            Node.file.injEq] at h
          obtain ⟨hp, hc⟩ := h
          subst hc
          cases hcr : (components segs).reverse with
          | nil =>
            have hnil : components segs = [] := by simpa using hcr
            rw [hnil] at hw
            simp [FS.walk] at hw
          | cons last rinit =>
            rw [components_of_reverse segs last rinit hcr, FS.walk_append] at hw
            cases hwi : FS.walk fs [] Node.dir rinit.reverse with
            | error e => simp [hwi] at hw
            | ok y =>
              obtain ⟨rcur, n1⟩ := y
              simp only [hwi] at hw ⊢
              cases n1 with
              | file c2 => simp [FS.walk] at hw
              | dir =>
                simp only [FS.walk, FS.step] at hw
                by_cases h1 : last = "."
                · simp [h1] at hw
                · by_cases h2 : last = ".."
                  · simp [h1, h2] at hw
                  · by_cases h3 : nameMax < last.utf8ByteSize
                    · simp [h1, h2, h3] at hw
                    · simp only [h1, h2, h3, if_false] at hw
                      cases hf : FS.find fs (rcur.reverse ++ [last]) with
                      | none => simp [hf] at hw
                      | some n2 =>
                        simp only [hf, Except.ok.injEq, Prod.mk.injEq] at hw
                        obtain ⟨hr, hn2⟩ := hw
                        subst hn2
                        have hpp : p = rcur.reverse ++ [last] := by
                          rw [← hp, ← hr]
                          simp
                        simp [h1, h2, h3, ht, hpp, hf]

/-- Where `Stat` reports a regular file, `Remove` succeeds and leaves no entry
at the file's location. -/
theorem FS.Remove_file (name : String) (fs : FS) (p : Path) (c : String)
    (h : FS.resolve fs (segments name) = .ok (p, Node.file c)) :
    FS.Remove name fs = (none, fs.filter (fun e => decide (e.1 ≠ p))) := by
  unfold FS.Remove
  rw [FS.unlinkSegs_file fs (segments name) p c h]

end FilesystemCalls

section Provisioning

/-- What `createHandlers` returns when it returns: the provisioned state and
the handlers built from the effective options. -/
theorem createHandlers_ok {ω : Type} (env : Env ω) (opts : List optionFunc) (s : State ω)
    (hs : List (Handler ω)) (s1 : State ω) (h : createHandlers env opts s = .ok (hs, s1)) :
    provision env (effectiveOption opts).dir s = .ok s1 ∧
    hs = builtinHandlers env (effectiveOption opts) := by
  unfold createHandlers at h
  cases hp : provision env (effectiveOption opts).dir s with
  | error p => simp [hp] at h
  | ok s2 =>
    simp only [hp, Except.ok.injEq, Prod.mk.injEq] at h
    exact ⟨by rw [h.2], h.1.symm⟩

/-- The two ways `createHandlers` can end, for any collaborators: it returns
the two built-in handlers, whatever `MkdirAll` and `Remove` returned; or `Stat`
returned a nil `FileInfo` with an error (or none) that is not "does not
exist", and it panics. -/
theorem createHandlers_returns_or_panics {ω : Type} (env : Env ω) (opts : List optionFunc)
    (s : State ω) :
    (∃ s1, createHandlers env opts s
        = .ok ([fileHandler env (effectiveOption opts), consoleHandler env], s1)) ∨
    ((env.Stat (effectiveOption opts).dir s.world).1 = none ∧
      IsNotExist (env.Stat (effectiveOption opts).dir s.world).2 = false ∧
      createHandlers env opts s = .error Panic.nilDereference) := by
  unfold createHandlers provision callStat
  cases hne : IsNotExist (env.Stat (effectiveOption opts).dir s.world).2 with
  | true => left; simp [hne, builtinHandlers]
  | false =>
    cases hfi : (env.Stat (effectiveOption opts).dir s.world).1 with
    | none => right; simp [hne, hfi]
    | some fi =>
      left
      cases hd : fi.IsDir <;> simp [hne, hfi, hd, builtinHandlers]

/-- The provisioning block on the machine, by what `Stat` finds at the path:
nothing (`Stat` then `MkdirAll`), a regular file (`Stat`, `Remove`, `MkdirAll`),
a directory (`Stat` only), or another error (panic). -/
theorem provision_machine (env : Env Machine)
    (hStat : env.Stat = machineEnv.Stat) (hMk : env.MkdirAll = machineEnv.MkdirAll)
    (hRm : env.Remove = machineEnv.Remove) (dir : String) (s : State Machine) :
    (FS.Stat dir s.world.fs = (none, some Errno.ENOENT) →
      provision env dir s = .ok
        { s with
          world := { s.world with fs := (FS.MkdirAll dir 0o755 s.world.fs).2 },
          trace := s.trace ++
            [Event.Stat dir (some Errno.ENOENT),
             Event.MkdirAll dir 0o755 (FS.MkdirAll dir 0o755 s.world.fs).1] }) ∧
    (FS.Stat dir s.world.fs = (some { IsDir := false }, none) →
      provision env dir s = .ok
        { s with
          world := { s.world with
            fs := (FS.MkdirAll dir 0o755 (FS.Remove dir s.world.fs).2).2 },
          trace := s.trace ++
            [Event.Stat dir none,
             Event.Remove dir (FS.Remove dir s.world.fs).1,
             Event.MkdirAll dir 0o755
               (FS.MkdirAll dir 0o755 (FS.Remove dir s.world.fs).2).1] }) ∧
    (FS.Stat dir s.world.fs = (some { IsDir := true }, none) →
      provision env dir s = .ok { s with trace := s.trace ++ [Event.Stat dir none] }) ∧
    (∀ e, e ≠ Errno.ENOENT → FS.Stat dir s.world.fs = (none, some e) →
      provision env dir s = .error Panic.nilDereference) := by
  have hS : env.Stat dir s.world = FS.Stat dir s.world.fs := by rw [hStat]; rfl
  refine ⟨?_, ?_, ?_, ?_⟩
  · intro h
    simp [provision, callStat, callMkdirAll, hS, hMk, h, IsNotExist, machineEnv]
  · intro h
    simp [provision, callStat, callMkdirAll, callRemove, hS, hMk, hRm, h, IsNotExist, machineEnv]
  · intro h
    simp [provision, callStat, hS, h, IsNotExist]
  · intro e he h
    have hne : IsNotExist (some e) = false := by
      cases e <;> simp [IsNotExist] at he ⊢
    simp [provision, callStat, hS, h, hne]

end Provisioning

section ClaimProvisioning

/-- C7. Directory provisioning on the filesystem of the machine, for every
configured path string and every filesystem. Whenever `createHandlers` returns
and the calls it made that change the filesystem (`MkdirAll`, `Remove`) all
returned no error, `Stat` on the path afterwards reports a directory. By what
was at the path before:
nothing (`Stat` says "does not exist"): `createHandlers` returns, having called
`Stat` and `MkdirAll`; if `MkdirAll` returned no error, the path is a directory
and so is every directory on the way to it;
a regular file: `createHandlers` returns, having called `Stat`, `Remove` and
`MkdirAll`; `Remove` succeeded, no entry of the filesystem holds a file (with
whatever content) at that location any more, and if `MkdirAll` returned no
error the path is a directory;
a directory: `createHandlers` returns, having called `Stat` only, and the
filesystem is unchanged. -/
theorem createHandlers_provisions_directory (env : Env Machine)
    (hStat : env.Stat = machineEnv.Stat) (hMk : env.MkdirAll = machineEnv.MkdirAll)
    (hRm : env.Remove = machineEnv.Remove)
    (opts : List optionFunc) (s : State Machine) :
    (∀ (hs : List (Handler Machine)) (s1 : State Machine),
      createHandlers env opts s = .ok (hs, s1) →
      (∀ e ∈ s1.trace.drop s.trace.length, e.failed = false) →
      FS.Stat (effectiveOption opts).dir s1.world.fs = (some { IsDir := true }, none)) ∧
    (FS.Stat (effectiveOption opts).dir s.world.fs = (none, some Errno.ENOENT) →
      createHandlers env opts s = .ok
        (builtinHandlers env (effectiveOption opts),
         { s with
           world := { s.world with
             fs := (FS.MkdirAll (effectiveOption opts).dir 0o755 s.world.fs).2 },
           trace := s.trace ++
             [Event.Stat (effectiveOption opts).dir (some Errno.ENOENT),
              Event.MkdirAll (effectiveOption opts).dir 0o755
                (FS.MkdirAll (effectiveOption opts).dir 0o755 s.world.fs).1] }) ∧
      ((FS.MkdirAll (effectiveOption opts).dir 0o755 s.world.fs).1 = none →
        FS.Stat (effectiveOption opts).dir
            (FS.MkdirAll (effectiveOption opts).dir 0o755 s.world.fs).2
          = (some { IsDir := true }, none) ∧
        ∀ pre, pre <+: components (segments (effectiveOption opts).dir) →
          ∃ r, FS.walk (FS.MkdirAll (effectiveOption opts).dir 0o755 s.world.fs).2
            [] Node.dir pre = .ok (r, Node.dir))) ∧
    (∀ (p : Path) (c : String),
      FS.resolve s.world.fs (segments (effectiveOption opts).dir) = .ok (p, Node.file c) →
      FS.Remove (effectiveOption opts).dir s.world.fs
        = (none, s.world.fs.filter (fun e => decide (e.1 ≠ p))) ∧
      createHandlers env opts s = .ok
        (builtinHandlers env (effectiveOption opts),
         { s with
           world := { s.world with
             fs := (FS.MkdirAll (effectiveOption opts).dir 0o755
               (s.world.fs.filter (fun e => decide (e.1 ≠ p)))).2 },
           trace := s.trace ++
             [Event.Stat (effectiveOption opts).dir none,
              Event.Remove (effectiveOption opts).dir none,
              Event.MkdirAll (effectiveOption opts).dir 0o755
                (FS.MkdirAll (effectiveOption opts).dir 0o755
                  (s.world.fs.filter (fun e => decide (e.1 ≠ p)))).1] }) ∧
      (∀ c1, (p, Node.file c1) ∉
        (FS.MkdirAll (effectiveOption opts).dir 0o755
          (s.world.fs.filter (fun e => decide (e.1 ≠ p)))).2) ∧
      ((FS.MkdirAll (effectiveOption opts).dir 0o755
          (s.world.fs.filter (fun e => decide (e.1 ≠ p)))).1 = none →
        FS.Stat (effectiveOption opts).dir
            (FS.MkdirAll (effectiveOption opts).dir 0o755
              (s.world.fs.filter (fun e => decide (e.1 ≠ p)))).2
          = (some { IsDir := true }, none))) ∧
    (FS.Stat (effectiveOption opts).dir s.world.fs = (some { IsDir := true }, none) →
      createHandlers env opts s = .ok
        (builtinHandlers env (effectiveOption opts),
         { s with trace := s.trace ++ [Event.Stat (effectiveOption opts).dir none] })) := by
  generalize hdir : (effectiveOption opts).dir = dir
  obtain ⟨pAbsent, pFile, pDir, pOther⟩ := provision_machine env hStat hMk hRm dir s
  have hcreate : ∀ s1, provision env dir s = .ok s1 →
      createHandlers env opts s = .ok (builtinHandlers env (effectiveOption opts), s1) := by
    intro s1 h
    simp [createHandlers, hdir, h]
  have hfileStat : ∀ (p : Path) (c : String),
      FS.resolve s.world.fs (segments dir) = .ok (p, Node.file c) →
      FS.Stat dir s.world.fs = (some { IsDir := false }, none) := by
    intro p c h
    simp [FS.Stat, FS.statSegs, h]
  refine ⟨?_, ?_, ?_, ?_⟩
  · intro hs s1 hrun hok
    obtain ⟨hprov, _⟩ := createHandlers_ok env opts s hs s1 hrun
    rw [hdir] at hprov
    rcases FS.statSegs_cases s.world.fs (segments dir) with
      ⟨p, _, hst⟩ | ⟨p, c, hres, hst⟩ | ⟨e, _, hst⟩
    · -- a directory there
      rw [pDir hst] at hprov
      simp only [Except.ok.injEq] at hprov
      subst hprov
      exact hst
    · -- a regular file there
      rw [pFile hst] at hprov
      simp only [Except.ok.injEq] at hprov
      subst hprov
      have hmk : (FS.MkdirAll dir 0o755 (FS.Remove dir s.world.fs).2).1 = none := by
        cases hres1 : (FS.MkdirAll dir 0o755 (FS.Remove dir s.world.fs).2).1 with
        | none => rfl
        | some e =>
          have := hok (Event.MkdirAll dir 0o755
            (FS.MkdirAll dir 0o755 (FS.Remove dir s.world.fs).2).1) (by simp)
          simp [hres1, Event.failed] at this
      exact (FS.MkdirAll_ok dir 0o755 _ hmk).1
    · by_cases he : e = Errno.ENOENT
      · -- nothing there
        subst he
        rw [pAbsent hst] at hprov
        simp only [Except.ok.injEq] at hprov
        subst hprov
        have hmk : (FS.MkdirAll dir 0o755 s.world.fs).1 = none := by
          cases hres1 : (FS.MkdirAll dir 0o755 s.world.fs).1 with
          | none => rfl
          | some e =>
            have := hok (Event.MkdirAll dir 0o755 (FS.MkdirAll dir 0o755 s.world.fs).1)
              (by simp)
            simp [hres1, Event.failed] at this
        exact (FS.MkdirAll_ok dir 0o755 _ hmk).1
      · -- `Stat` failed otherwise: `createHandlers` does not return
        rw [pOther e he hst] at hprov
        simp at hprov
  · intro hst
    exact ⟨hcreate _ (pAbsent hst), fun hmk => FS.MkdirAll_ok dir 0o755 _ hmk⟩
  · intro p c hres
    have hrm := FS.Remove_file dir s.world.fs p c hres
    have hprov := pFile (hfileStat p c hres)
    rw [hrm] at hprov
    refine ⟨hrm, hcreate _ hprov, ?_, fun hmk => (FS.MkdirAll_ok dir 0o755 _ hmk).1⟩
    intro c1 hmem
    rcases FS.MkdirAll_mem dir 0o755 _ _ hmem with hin | hd
    · simp at hin
    · simp at hd
  · intro hst
    exact hcreate _ (pDir hst)

end ClaimProvisioning

section Construction

variable {ω : Type}

/-- What `NewSlogger` returns when it returns: a synchronous logger over the
two built-in handlers. -/
theorem NewSlogger_ok (env : Env ω) (opts : List optionFunc) (s : State ω)
    (l : slogger ω) (s1 : State ω) (h : NewSlogger env opts s = .ok (l, s1)) :
    l = { handlers := builtinHandlers env (effectiveOption opts), async := false } ∧
    createHandlers env opts s = .ok (builtinHandlers env (effectiveOption opts), s1) := by
  unfold NewSlogger at h
  cases hc : createHandlers env opts s with
  | error p => simp [hc] at h
  | ok res =>
    obtain ⟨hs, s2⟩ := res
    obtain ⟨_, hhs⟩ := createHandlers_ok env opts s hs s2 hc
    simp only [hc, Except.ok.injEq, Prod.mk.injEq] at h
    obtain ⟨hl, hs2⟩ := h
    subst hl hs2 hhs
    exact ⟨rfl, rfl⟩

/-- The built-in handlers enabled for a level: the file handler from Warn up,
then the console handler from Debug up. -/
theorem filter_builtinHandlers (env : Env ω) (o : option) (level : Level) :
    (builtinHandlers env o).filter (fun h => h.Enabled level)
      = (if LevelWarn ≤ level then [fileHandler env o] else []) ++
        (if LevelDebug ≤ level then [consoleHandler env] else []) := by
  by_cases h1 : LevelWarn ≤ level <;> by_cases h2 : LevelDebug ≤ level <;>
    simp [builtinHandlers, fileHandler, consoleHandler, NewJSONHandler, slogorNewHandler,
      List.filter_cons, h1, h2]

/-- The world and the trace after a synchronous `log` over the two built-in
handlers, for any level and in any state. -/
theorem log_builtin_state (env : Env ω) (o : option) (now : Int) (pc : Nat)
    (level : Level) (msg : String) (attrs : List Attr) (s : State ω) :
    ((slogger.log env { handlers := builtinHandlers env o, async := false }
        now pc level msg attrs s).world,
     (slogger.log env { handlers := builtinHandlers env o, async := false }
        now pc level msg attrs s).trace)
      = ((if LevelWarn ≤ level then [fileHandler env o] else []) ++
          (if LevelDebug ≤ level then [consoleHandler env] else [])).foldl
          (fun (a : ω × List Event) (h : Handler ω) =>
            match h.Handle ((NewRecord now level msg pc).AddAttrs attrs) a.1 with
            | (some e, w) =>
              (env.slogError "Failed to handle log record" [slogString "error" e] w,
               a.2 ++ [Event.Handle h.ref ((NewRecord now level msg pc).AddAttrs attrs) (some e),
                       Event.slogError "Failed to handle log record" [slogString "error" e]])
            | (none, w) =>
              (w, a.2 ++ [Event.Handle h.ref ((NewRecord now level msg pc).AddAttrs attrs) none]))
          (s.world, s.trace) := by
  have h := (foldl_logBody_sync_state env ((NewRecord now level msg pc).AddAttrs attrs)
    (builtinHandlers env o) s).1
  have hf : (builtinHandlers env o).filter
      (fun h => h.Enabled ((NewRecord now level msg pc).AddAttrs attrs).Level)
      = (if LevelWarn ≤ level then [fileHandler env o] else []) ++
        (if LevelDebug ≤ level then [consoleHandler env] else []) :=
    filter_builtinHandlers env o level
  rw [hf] at h
  exact h

/-- The `Handle` invocations of a synchronous `log` over the two built-in
handlers, for any level: the file handler if the level is at least Warn, then
the console handler if the level is at least Debug. -/
theorem log_builtin_handle_calls (env : Env ω) (o : option) (now : Int) (pc : Nat)
    (level : Level) (msg : String) (attrs : List Attr) (s : State ω) :
    handleCalls (slogger.log env { handlers := builtinHandlers env o, async := false }
        now pc level msg attrs s).trace
      = handleCalls s.trace ++
        ((if LevelWarn ≤ level then
            [((fileHandler env o).ref, (NewRecord now level msg pc).AddAttrs attrs)] else []) ++
         (if LevelDebug ≤ level then
            [((consoleHandler env).ref, (NewRecord now level msg pc).AddAttrs attrs)] else [])) := by
  obtain ⟨t, ht, _, hc, _⟩ := log_sync_spec env (builtinHandlers env o) now pc level msg attrs s
  rw [ht, handleCalls_append, hc, filter_builtinHandlers]
  congr 1
  by_cases h1 : LevelWarn ≤ level <;> by_cases h2 : LevelDebug ≤ level <;> simp [h1, h2]

theorem fileHandler_ref_ne_consoleHandler_ref (env : Env ω) (o : option) :
    (fileHandler env o).ref ≠ (consoleHandler env).ref := by
  simp [fileHandler, consoleHandler, NewJSONHandler, slogorNewHandler]

/-- The records each built-in handler receives from a synchronous `log`. -/
theorem log_builtin_recordsOf (env : Env ω) (o : option) (now : Int) (pc : Nat)
    (level : Level) (msg : String) (attrs : List Attr) (s : State ω) :
    recordsOf (fileHandler env o).ref
        (slogger.log env { handlers := builtinHandlers env o, async := false }
          now pc level msg attrs s).trace
      = recordsOf (fileHandler env o).ref s.trace ++
        (if LevelWarn ≤ level then [(NewRecord now level msg pc).AddAttrs attrs] else []) ∧
    recordsOf (consoleHandler env).ref
        (slogger.log env { handlers := builtinHandlers env o, async := false }
          now pc level msg attrs s).trace
      = recordsOf (consoleHandler env).ref s.trace ++
        (if LevelDebug ≤ level then [(NewRecord now level msg pc).AddAttrs attrs] else []) := by
  have hne := fileHandler_ref_ne_consoleHandler_ref env o
  have hcalls := log_builtin_handle_calls env o now pc level msg attrs s
  constructor
  · unfold recordsOf
    rw [hcalls]
    by_cases h1 : LevelWarn ≤ level <;> by_cases h2 : LevelDebug ≤ level <;>
      simp [List.filter_cons, h1, h2, hne.symm]
  · unfold recordsOf
    rw [hcalls]
    by_cases h1 : LevelWarn ≤ level <;> by_cases h2 : LevelDebug ≤ level <;>
      simp [List.filter_cons, h1, h2, hne]

end Construction

section ClaimsConstruction

variable {ω : Type}

/-- C5, as amended. For a synchronous logger built by `NewSlogger` (with any
options, the defaults included), a call `Info(msg, attrs...)` made in any state
delivers exactly one record, to the console handler only: the world it leaves
is the world it was given with one `Handle` call of the console handler
applied (followed by one diagnostic emission if that call failed), the record
having level Info, message `msg` and the attributes `attrs` in order (less the
empty groups, which `AddAttrs` omits). The file handler, whose level is Warn,
is not invoked and receives nothing. -/
theorem info_delivered_to_console_only (env : Env ω) (opts : List optionFunc) (s : State ω)
    (l : slogger ω) (s1 : State ω) (hnew : NewSlogger env opts s = .ok (l, s1))
    (s2 : State ω) (now : Int) (pc : Nat) (msg : String) (attrs : List Attr) :
    ((l.Info env now pc msg attrs s2).world, (l.Info env now pc msg attrs s2).trace)
      = (match (consoleHandler env).Handle
            { Time := now, Message := msg, Level := LevelInfo, PC := pc,
              attrs := attrs.filter (fun a => !a.Val.isEmptyGroup) } s2.world with
        | (some e, w) =>
          (env.slogError "Failed to handle log record" [slogString "error" e] w,
           s2.trace ++
             [Event.Handle (consoleHandler env).ref
                { Time := now, Message := msg, Level := LevelInfo, PC := pc,
                  attrs := attrs.filter (fun a => !a.Val.isEmptyGroup) } (some e),
              Event.slogError "Failed to handle log record" [slogString "error" e]])
        | (none, w) =>
          (w, s2.trace ++
             [Event.Handle (consoleHandler env).ref
                { Time := now, Message := msg, Level := LevelInfo, PC := pc,
                  attrs := attrs.filter (fun a => !a.Val.isEmptyGroup) } none])) ∧
    (l.Info env now pc msg attrs s2).pipe = s2.pipe ∧
    handleCalls (l.Info env now pc msg attrs s2).trace
      = handleCalls s2.trace ++
        [((consoleHandler env).ref,
          { Time := now, Message := msg, Level := LevelInfo, PC := pc,
            attrs := attrs.filter (fun a => !a.Val.isEmptyGroup) })] ∧
    recordsOf (consoleHandler env).ref (l.Info env now pc msg attrs s2).trace
      = recordsOf (consoleHandler env).ref s2.trace ++
        [{ Time := now, Message := msg, Level := LevelInfo, PC := pc,
           attrs := attrs.filter (fun a => !a.Val.isEmptyGroup) }] ∧
    recordsOf (fileHandler env (effectiveOption opts)).ref (l.Info env now pc msg attrs s2).trace
      = recordsOf (fileHandler env (effectiveOption opts)).ref s2.trace ∧
    l.handlers = [fileHandler env (effectiveOption opts), consoleHandler env] := by
  obtain ⟨hl, _⟩ := NewSlogger_ok env opts s l s1 hnew
  subst hl
  have hstate := log_builtin_state env (effectiveOption opts) now pc LevelInfo msg attrs s2
  have hcalls := log_builtin_handle_calls env (effectiveOption opts) now pc LevelInfo msg attrs s2
  have hrec := log_builtin_recordsOf env (effectiveOption opts) now pc LevelInfo msg attrs s2
  have hpipe := (foldl_logBody_sync_state env ((NewRecord now LevelInfo msg pc).AddAttrs attrs)
    (builtinHandlers env (effectiveOption opts)) s2).2
  have hw : ¬ LevelWarn ≤ LevelInfo := by decide
  have hd : LevelDebug ≤ LevelInfo := by decide
  simp only [hw, hd, if_true, if_false, List.nil_append, List.append_nil, List.foldl_cons,
    List.foldl_nil] at hstate hcalls hrec
  refine ⟨hstate, hpipe, ?_, ?_, ?_, rfl⟩
  · simpa [slogger.Info, NewRecord, Record.AddAttrs] using hcalls
  · simpa [slogger.Info, NewRecord, Record.AddAttrs] using hrec.2
  · simpa [slogger.Info] using hrec.1

/-- C6. For a synchronous logger built by `NewSlogger`, whose handlers are the
file handler (level Warn) and the console handler (level Debug), and a call
made in any state: `Debug` and `Info` run the console handler only, `Warn` and
`Error` run the file handler and then the console handler. In each case the
world left is the world given with `Handle` of exactly these handlers applied
in that order (each failure followed by one diagnostic emission), and the
records each handler received, read off the trace, are: nothing for the file
handler and the record for the console handler from `Debug` and `Info`, the
record for both from `Warn` and `Error`. With Debug < Info < Warn < Error, the
file handler processes the record exactly when the level is at least Warn, the
console handler for all four levels. The record carries the level of the
method, the message and the attributes given. -/
theorem leveled_methods_delivery (env : Env ω) (opts : List optionFunc) (s : State ω)
    (l : slogger ω) (s1 : State ω) (hnew : NewSlogger env opts s = .ok (l, s1))
    (s2 : State ω) (now : Int) (pc : Nat) (msg : String) (attrs : List Attr) :
    (l.handlers = [fileHandler env (effectiveOption opts), consoleHandler env] ∧
      l.async = false ∧
      (fileHandler env (effectiveOption opts) : Handler ω).Enabled
        = (fun level => decide (LevelWarn ≤ level)) ∧
      (consoleHandler env : Handler ω).Enabled = (fun level => decide (LevelDebug ≤ level)) ∧
      LevelDebug < LevelInfo ∧ LevelInfo < LevelWarn ∧ LevelWarn < LevelError ∧
      ∀ level : Level, (NewRecord now level msg pc).AddAttrs attrs
        = { Time := now, Message := msg, Level := level, PC := pc,
            attrs := attrs.filter (fun a => !a.Val.isEmptyGroup) }) ∧
    (((l.Debug env now pc msg attrs s2).world, (l.Debug env now pc msg attrs s2).trace)
        = [consoleHandler env].foldl
          (fun (a : ω × List Event) (h : Handler ω) =>
            match h.Handle ((NewRecord now LevelDebug msg pc).AddAttrs attrs) a.1 with
            | (some e, w) =>
              (env.slogError "Failed to handle log record" [slogString "error" e] w,
               a.2 ++ [Event.Handle h.ref ((NewRecord now LevelDebug msg pc).AddAttrs attrs)
                         (some e),
                       Event.slogError "Failed to handle log record" [slogString "error" e]])
            | (none, w) =>
              (w, a.2 ++ [Event.Handle h.ref ((NewRecord now LevelDebug msg pc).AddAttrs attrs)
                            none]))
          (s2.world, s2.trace) ∧
      recordsOf (fileHandler env (effectiveOption opts)).ref (l.Debug env now pc msg attrs s2).trace
        = recordsOf (fileHandler env (effectiveOption opts)).ref s2.trace ∧
      recordsOf (consoleHandler env).ref (l.Debug env now pc msg attrs s2).trace
        = recordsOf (consoleHandler env).ref s2.trace ++
          [(NewRecord now LevelDebug msg pc).AddAttrs attrs]) ∧
    (((l.Info env now pc msg attrs s2).world, (l.Info env now pc msg attrs s2).trace)
        = [consoleHandler env].foldl
          (fun (a : ω × List Event) (h : Handler ω) =>
            match h.Handle ((NewRecord now LevelInfo msg pc).AddAttrs attrs) a.1 with
            | (some e, w) =>
              (env.slogError "Failed to handle log record" [slogString "error" e] w,
               a.2 ++ [Event.Handle h.ref ((NewRecord now LevelInfo msg pc).AddAttrs attrs)
                         (some e),
                       Event.slogError "Failed to handle log record" [slogString "error" e]])
            | (none, w) =>
              (w, a.2 ++ [Event.Handle h.ref ((NewRecord now LevelInfo msg pc).AddAttrs attrs)
                            none]))
          (s2.world, s2.trace) ∧
      recordsOf (fileHandler env (effectiveOption opts)).ref (l.Info env now pc msg attrs s2).trace
        = recordsOf (fileHandler env (effectiveOption opts)).ref s2.trace ∧
      recordsOf (consoleHandler env).ref (l.Info env now pc msg attrs s2).trace
        = recordsOf (consoleHandler env).ref s2.trace ++
          [(NewRecord now LevelInfo msg pc).AddAttrs attrs]) ∧
    (((l.Warn env now pc msg attrs s2).world, (l.Warn env now pc msg attrs s2).trace)
        = [fileHandler env (effectiveOption opts), consoleHandler env].foldl
          (fun (a : ω × List Event) (h : Handler ω) =>
            match h.Handle ((NewRecord now LevelWarn msg pc).AddAttrs attrs) a.1 with
            | (some e, w) =>
              (env.slogError "Failed to handle log record" [slogString "error" e] w,
               a.2 ++ [Event.Handle h.ref ((NewRecord now LevelWarn msg pc).AddAttrs attrs)
                         (some e),
                       Event.slogError "Failed to handle log record" [slogString "error" e]])
            | (none, w) =>
              (w, a.2 ++ [Event.Handle h.ref ((NewRecord now LevelWarn msg pc).AddAttrs attrs)
                            none]))
          (s2.world, s2.trace) ∧
      recordsOf (fileHandler env (effectiveOption opts)).ref (l.Warn env now pc msg attrs s2).trace
        = recordsOf (fileHandler env (effectiveOption opts)).ref s2.trace ++
          [(NewRecord now LevelWarn msg pc).AddAttrs attrs] ∧
      recordsOf (consoleHandler env).ref (l.Warn env now pc msg attrs s2).trace
        = recordsOf (consoleHandler env).ref s2.trace ++
          [(NewRecord now LevelWarn msg pc).AddAttrs attrs]) ∧
    (((l.Error env now pc msg attrs s2).world, (l.Error env now pc msg attrs s2).trace)
        = [fileHandler env (effectiveOption opts), consoleHandler env].foldl
          (fun (a : ω × List Event) (h : Handler ω) =>
            match h.Handle ((NewRecord now LevelError msg pc).AddAttrs attrs) a.1 with
            | (some e, w) =>
              (env.slogError "Failed to handle log record" [slogString "error" e] w,
               a.2 ++ [Event.Handle h.ref ((NewRecord now LevelError msg pc).AddAttrs attrs)
                         (some e),
                       Event.slogError "Failed to handle log record" [slogString "error" e]])
            | (none, w) =>
              (w, a.2 ++ [Event.Handle h.ref ((NewRecord now LevelError msg pc).AddAttrs attrs)
                            none]))
          (s2.world, s2.trace) ∧
      recordsOf (fileHandler env (effectiveOption opts)).ref (l.Error env now pc msg attrs s2).trace
        = recordsOf (fileHandler env (effectiveOption opts)).ref s2.trace ++
          [(NewRecord now LevelError msg pc).AddAttrs attrs] ∧
      recordsOf (consoleHandler env).ref (l.Error env now pc msg attrs s2).trace
        = recordsOf (consoleHandler env).ref s2.trace ++
          [(NewRecord now LevelError msg pc).AddAttrs attrs]) := by
  obtain ⟨hl, _⟩ := NewSlogger_ok env opts s l s1 hnew
  subst hl
  have hD := log_builtin_recordsOf env (effectiveOption opts) now pc LevelDebug msg attrs s2
  have hI := log_builtin_recordsOf env (effectiveOption opts) now pc LevelInfo msg attrs s2
  have hW := log_builtin_recordsOf env (effectiveOption opts) now pc LevelWarn msg attrs s2
  have hE := log_builtin_recordsOf env (effectiveOption opts) now pc LevelError msg attrs s2
  have sD := log_builtin_state env (effectiveOption opts) now pc LevelDebug msg attrs s2
  have sI := log_builtin_state env (effectiveOption opts) now pc LevelInfo msg attrs s2
  have sW := log_builtin_state env (effectiveOption opts) now pc LevelWarn msg attrs s2
  have sE := log_builtin_state env (effectiveOption opts) now pc LevelError msg attrs s2
  have h1 : ¬ LevelWarn ≤ LevelDebug := by decide
  have h2 : LevelDebug ≤ LevelDebug := by decide
  have h3 : ¬ LevelWarn ≤ LevelInfo := by decide
  have h4 : LevelDebug ≤ LevelInfo := by decide
  have h5 : LevelWarn ≤ LevelWarn := by decide
  have h6 : LevelDebug ≤ LevelWarn := by decide
  have h7 : LevelWarn ≤ LevelError := by decide
  have h8 : LevelDebug ≤ LevelError := by decide
  simp only [h1, h2, if_true, if_false, List.append_nil, List.nil_append] at hD sD
  simp only [h3, h4, if_true, if_false, List.append_nil, List.nil_append] at hI sI
  simp only [h5, h6, if_true, List.singleton_append] at hW sW
  simp only [h7, h8, if_true, List.singleton_append] at hE sE
  exact ⟨⟨rfl, rfl, rfl, rfl, by decide, by decide, by decide, fun _ => rfl⟩,
    ⟨sD, hD.1, hD.2⟩, ⟨sI, hI.1, hI.2⟩, ⟨sW, hW.1, hW.2⟩, ⟨sE, hE.1, hE.2⟩⟩

/-- C8, at the failing input. On a filesystem where `a` is a regular file,
`Stat` on `a/logs` fails with `ENOTDIR`, which is not "does not exist";
`createHandlers` then calls `IsDir` on the nil `FileInfo` and panics, and so do
`NewSlogger` and `NewAsyncSlogger`: no logger is returned. The same happens
for the path `logs/` where `logs` is a regular file. -/
theorem createHandlers_panics_on_other_stat_error :
    FS.Stat "a/logs" fileAtA = (none, some Errno.ENOTDIR) ∧
    IsNotExist (some Errno.ENOTDIR) = false ∧
    createHandlers machineEnv [WithDir "a/logs"] (init (Machine.boot fileAtA))
      = .error Panic.nilDereference ∧
    NewSlogger machineEnv [WithDir "a/logs"] (init (Machine.boot fileAtA))
      = .error Panic.nilDereference ∧
    NewAsyncSlogger machineEnv [WithDir "a/logs"] (init (Machine.boot fileAtA))
      = .error Panic.nilDereference ∧
    FS.Stat "logs/" fileAtLogs = (none, some Errno.ENOTDIR) ∧
    createHandlers machineEnv [WithDir "logs/"] (init (Machine.boot fileAtLogs))
      = .error Panic.nilDereference :=
  ⟨by decide, by decide, rfl, rfl, rfl, by decide, rfl⟩

end ClaimsConstruction

section Options

/-- The last element of a list with a new head, when there is a fallback. -/
theorem getLast?_cons_getD {α : Type} (a d : α) (l : List α) :
    ((a :: l).getLast?).getD d = (l.getLast?).getD a := by
  cases l with
  | nil => simp
  | cons b l =>
    rw [List.getLast?_cons_cons, List.getLast?_eq_getLast (b :: l) (List.cons_ne_nil b l)]
    rfl

/-- Folding setters over any starting options: each field ends up as the
argument of the last setter for it, or as it started. -/
theorem foldl_setters (l : List Setter) (o : option) :
    (l.foldl (fun o x => x.toOptionFunc o) o).dir
        = ((l.filterMap Setter.dirArg).getLast?).getD o.dir ∧
    (l.foldl (fun o x => x.toOptionFunc o) o).file
        = ((l.filterMap Setter.fileArg).getLast?).getD o.file ∧
    (l.foldl (fun o x => x.toOptionFunc o) o).maxSize
        = ((l.filterMap Setter.maxSizeArg).getLast?).getD o.maxSize ∧
    (l.foldl (fun o x => x.toOptionFunc o) o).maxBackups
        = ((l.filterMap Setter.maxBackupsArg).getLast?).getD o.maxBackups ∧
    (l.foldl (fun o x => x.toOptionFunc o) o).maxAge
        = ((l.filterMap Setter.maxAgeArg).getLast?).getD o.maxAge := by
  induction l generalizing o with
  | nil => simp
  | cons x l ih =>
    obtain ⟨h1, h2, h3, h4, h5⟩ := ih (x.toOptionFunc o)
    simp only [List.foldl_cons]
    rw [h1, h2, h3, h4, h5]
    cases x <;>
      simp [Setter.toOptionFunc, Setter.dirArg, Setter.fileArg, Setter.maxSizeArg,
        Setter.maxBackupsArg, Setter.maxAgeArg, WithDir, WithFile, WithMaxSize,
        WithMaxBackups, WithMaxAge, List.filterMap_cons, getLast?_cons_getD]

/-- Options that leave the defaults as they are fold to the defaults. -/
theorem effectiveOption_of_fix (opts : List optionFunc)
    (h : ∀ f ∈ opts, f defaultOption = defaultOption) :
    effectiveOption opts = defaultOption := by
  unfold effectiveOption
  induction opts with
  | nil => rfl
  | cons f fs ih =>
    simp only [List.foldl_cons]
    rw [h f (List.mem_cons_self f fs)]
    exact ih (fun g hg => h g (List.mem_cons_of_mem f hg))

end Options

section ClaimsOptions

variable {ω : Type}

/-- C9. The effective configuration is the left fold of the supplied setters,
in the caller's order, over the defaults: for every list of `WithDir`,
`WithFile`, `WithMaxSize`, `WithMaxBackups`, `WithMaxAge` options, each field is
the argument of the last setter for that field, or the default (`logs`,
`app.log`, 10, 3, 7) if there is none. Each setter changes only its own field.
Values are not validated: any integer, zero and negatives included, is stored
as given and handed to the file handler as given. -/
theorem effectiveOption_last_setter_wins (l : List Setter) :
    ((effectiveOption (l.map Setter.toOptionFunc)).dir
        = ((l.filterMap Setter.dirArg).getLast?).getD "logs" ∧
      (effectiveOption (l.map Setter.toOptionFunc)).file
        = ((l.filterMap Setter.fileArg).getLast?).getD "app.log" ∧
      (effectiveOption (l.map Setter.toOptionFunc)).maxSize
        = ((l.filterMap Setter.maxSizeArg).getLast?).getD 10 ∧
      (effectiveOption (l.map Setter.toOptionFunc)).maxBackups
        = ((l.filterMap Setter.maxBackupsArg).getLast?).getD 3 ∧
      (effectiveOption (l.map Setter.toOptionFunc)).maxAge
        = ((l.filterMap Setter.maxAgeArg).getLast?).getD 7) ∧
    (∀ (o : option) (d : String),
      WithDir d o = { dir := d, file := o.file, maxSize := o.maxSize,
                      maxBackups := o.maxBackups, maxAge := o.maxAge }) ∧
    (∀ (o : option) (f : String),
      WithFile f o = { dir := o.dir, file := f, maxSize := o.maxSize,
                       maxBackups := o.maxBackups, maxAge := o.maxAge }) ∧
    (∀ (o : option) (n : Int),
      WithMaxSize n o = { dir := o.dir, file := o.file, maxSize := n,
                          maxBackups := o.maxBackups, maxAge := o.maxAge }) ∧
    (∀ (o : option) (n : Int),
      WithMaxBackups n o = { dir := o.dir, file := o.file, maxSize := o.maxSize,
                             maxBackups := n, maxAge := o.maxAge }) ∧
    (∀ (o : option) (n : Int),
      WithMaxAge n o = { dir := o.dir, file := o.file, maxSize := o.maxSize,
                         maxBackups := o.maxBackups, maxAge := n }) ∧
    (∀ (env : Env ω) (opts : List optionFunc),
      (builtinHandlers env (effectiveOption opts)).map (fun h => h.ref)
        = [HandlerRef.json
            { Filename := env.Join (effectiveOption opts).dir (effectiveOption opts).file,
              MaxSize := (effectiveOption opts).maxSize,
              MaxBackups := (effectiveOption opts).maxBackups,
              MaxAge := (effectiveOption opts).maxAge }
            { AddSource := true, Level := LevelWarn },
           HandlerRef.slogor LevelDebug timeDateTime true]) := by
  refine ⟨?_, fun _ _ => rfl, fun _ _ => rfl, fun _ _ => rfl, fun _ _ => rfl,
    fun _ _ => rfl, fun _ _ => rfl⟩
  have h := foldl_setters l defaultOption
  simpa [effectiveOption, List.foldl_map, defaultOption] using h

/-- C10. Round trip on defaults. If every supplied option is one of
`WithDir("logs")`, `WithFile("app.log")`, `WithMaxSize(10)`, `WithMaxBackups(3)`,
`WithMaxAge(7)` (any subset, any order, repeats allowed), the effective
configuration, and the whole outcome of `createHandlers`, `NewSlogger` and
`NewAsyncSlogger` from the same starting state (the filesystem calls made, the
resulting state, the handlers, or the panic) are those of no options at all.
For any options, `NewAsyncSlogger` gives what `NewSlogger` gives with the mode
flag set to asynchronous, and `NewSlogger` gives the flag synchronous. -/
theorem defaults_round_trip (env : Env ω) (opts : List optionFunc)
    (hdef : ∀ f ∈ opts, f = WithDir "logs" ∨ f = WithFile "app.log" ∨ f = WithMaxSize 10 ∨
      f = WithMaxBackups 3 ∨ f = WithMaxAge 7)
    (s : State ω) :
    effectiveOption opts = effectiveOption [] ∧
    createHandlers env opts s = createHandlers env [] s ∧
    NewSlogger env opts s = NewSlogger env [] s ∧
    NewAsyncSlogger env opts s = NewAsyncSlogger env [] s ∧
    (∀ (opts1 : List optionFunc),
      NewAsyncSlogger env opts1 s
        = (NewSlogger env opts1 s).map (fun p => ({ p.1 with async := true }, p.2)) ∧
      NewSlogger env opts1 s
        = (NewAsyncSlogger env opts1 s).map (fun p => ({ p.1 with async := false }, p.2))) := by
  have heff : effectiveOption opts = effectiveOption [] := by
    rw [effectiveOption_of_fix opts]
    · rfl
    · intro f hf
      rcases hdef f hf with h | h | h | h | h <;> subst h <;> rfl
  have hcreate : createHandlers env opts s = createHandlers env [] s := by
    simp only [createHandlers, heff]
  refine ⟨heff, hcreate, ?_, ?_, ?_⟩
  · simp only [NewSlogger, hcreate]
  · simp only [NewAsyncSlogger, hcreate]
  · intro opts1
    unfold NewSlogger NewAsyncSlogger
    cases createHandlers env opts1 s with
    | error p => exact ⟨rfl, rfl⟩
    | ok res => exact ⟨rfl, rfl⟩

end ClaimsOptions

section Instances

/-- C5, counterexample. In the scenario of the claim (the concrete
collaborators, an empty filesystem, `NewSlogger()` with default options, then
`Info("started", pid=123)`) the logger is built with the file handler and the
console handler, and of that call the file handler receives no record, not one;
the console handler receives one, and it is the only sink of the machine that
was given anything. -/
theorem info_not_delivered_to_file_handler :
    (NewSlogger machineEnv [] (init (Machine.boot []))).toOption.map (fun p =>
        (p.1.handlers.map (fun h => h.ref),
         p.1.handlers.map (fun h =>
          (recordsOf h.ref
            (p.1.Info machineEnv 0 0 "started" [slogInt "pid" 123] p.2).trace).length),
         (p.1.Info machineEnv 0 0 "started" [slogInt "pid" 123] p.2).world.received.map
          (fun c => c.1)))
      = some ([HandlerRef.json
                { Filename := "logs/app.log", MaxSize := 10, MaxBackups := 3, MaxAge := 7 }
                { AddSource := true, Level := LevelWarn },
               HandlerRef.slogor LevelDebug timeDateTime true],
              [0, 1],
              [HandlerRef.slogor LevelDebug timeDateTime true]) := by
  decide

/-- Witness for C2: the file handler (level Warn) is not enabled for an Info
record and `handle` leaves the state alone; the console handler (level Debug)
is enabled and is invoked once. -/
theorem handle_enabled_gate_witness :
    ((fileHandler machineEnv defaultOption).Enabled (NewRecord 0 LevelInfo "started" 0).Level
        = false ∧
      handle (fileHandler machineEnv defaultOption) (NewRecord 0 LevelInfo "started" 0)
          sampleState
        = (none, sampleState)) ∧
    ((consoleHandler machineEnv).Enabled (NewRecord 0 LevelInfo "started" 0).Level = true ∧
      handleCalls (logBody machineEnv false (NewRecord 0 LevelInfo "started" 0) sampleState
          (consoleHandler machineEnv)).trace
        = handleCalls sampleState.trace ++
          [((consoleHandler machineEnv).ref, NewRecord 0 LevelInfo "started" 0)]) :=
  ⟨⟨by decide,
    ((handle_enabled_gate machineEnv (fileHandler machineEnv defaultOption)
      (NewRecord 0 LevelInfo "started" 0) sampleState).1 (by decide)).1⟩,
   ⟨by decide,
    ((handle_enabled_gate machineEnv (consoleHandler machineEnv)
      (NewRecord 0 LevelInfo "started" 0) sampleState).2 (by decide)).2.2.1⟩⟩

/-- Witness for C4: a queue holding a Debug unit for the console handler
between the two units of an Error delivery; the drain invokes the file handler
and then the console handler for that delivery. -/
theorem log_async_enqueue_order_witness :
    List.Sublist
      ((builtinHandlers machineEnv defaultOption).map (fun h =>
        ({ handler := h, record := (NewRecord 0 LevelError "lost" 0).AddAttrs [] }
          : pack Machine)))
      [{ handler := fileHandler machineEnv defaultOption,
         record := (NewRecord 0 LevelError "lost" 0).AddAttrs [] },
       { handler := consoleHandler machineEnv, record := NewRecord 1 LevelDebug "other" 0 },
       { handler := consoleHandler machineEnv,
         record := (NewRecord 0 LevelError "lost" 0).AddAttrs [] }] ∧
    ∃ t, (asyncHandle machineEnv
        { sampleState with pipe :=
          [{ handler := fileHandler machineEnv defaultOption,
             record := (NewRecord 0 LevelError "lost" 0).AddAttrs [] },
           { handler := consoleHandler machineEnv, record := NewRecord 1 LevelDebug "other" 0 },
           { handler := consoleHandler machineEnv,
             record := (NewRecord 0 LevelError "lost" 0).AddAttrs [] }] }).trace
        = sampleState.trace ++ t ∧
      List.Sublist
        (((builtinHandlers machineEnv defaultOption).filter
            (fun h => h.Enabled LevelError)).map
          (fun h => (h.ref, (NewRecord 0 LevelError "lost" 0).AddAttrs [])))
        (handleCalls t) :=
  have hsub : List.Sublist
      ((builtinHandlers machineEnv defaultOption).map (fun h =>
        ({ handler := h, record := (NewRecord 0 LevelError "lost" 0).AddAttrs [] }
          : pack Machine)))
      [{ handler := fileHandler machineEnv defaultOption,
         record := (NewRecord 0 LevelError "lost" 0).AddAttrs [] },
       { handler := consoleHandler machineEnv, record := NewRecord 1 LevelDebug "other" 0 },
       { handler := consoleHandler machineEnv,
         record := (NewRecord 0 LevelError "lost" 0).AddAttrs [] }] :=
    List.Sublist.cons₂ _ (List.Sublist.cons _ (List.Sublist.refl _))
  ⟨hsub,
   (log_async_enqueue_order machineEnv (builtinHandlers machineEnv defaultOption)
      0 0 LevelError "lost" [] sampleState).2.2.2.1
     { sampleState with pipe :=
        [{ handler := fileHandler machineEnv defaultOption,
           record := (NewRecord 0 LevelError "lost" 0).AddAttrs [] },
         { handler := consoleHandler machineEnv, record := NewRecord 1 LevelDebug "other" 0 },
         { handler := consoleHandler machineEnv,
           record := (NewRecord 0 LevelError "lost" 0).AddAttrs [] }] }
     hsub⟩

/-- Witness for C5 as amended: the scenario of the claim. -/
theorem info_delivered_to_console_only_witness :
    NewSlogger machineEnv [] (init (Machine.boot [])) = .ok (sampleLogger, sampleState) ∧
    handleCalls (sampleLogger.Info machineEnv 0 0 "started" [slogInt "pid" 123] sampleState).trace
      = handleCalls sampleState.trace ++
        [((consoleHandler machineEnv).ref,
          { Time := 0, Message := "started", Level := LevelInfo, PC := 0,
            attrs := [slogInt "pid" 123].filter (fun a => !a.Val.isEmptyGroup) })] ∧
    (sampleLogger.Info machineEnv 0 0 "started" [slogInt "pid" 123] sampleState).world.received
      = [((consoleHandler machineEnv).ref,
          { Time := 0, Message := "started", Level := LevelInfo, PC := 0,
            attrs := [slogInt "pid" 123] })] :=
  ⟨rfl, (info_delivered_to_console_only machineEnv [] (init (Machine.boot [])) sampleLogger
    sampleState rfl sampleState 0 0 "started" [slogInt "pid" 123]).2.2.1, rfl⟩

/-- Witness for C6: a `Debug` call on the logger `NewSlogger()` built over an
empty filesystem. -/
theorem leveled_methods_delivery_witness :
    NewSlogger machineEnv [] (init (Machine.boot [])) = .ok (sampleLogger, sampleState) ∧
    (recordsOf (fileHandler machineEnv (effectiveOption [])).ref
        (sampleLogger.Debug machineEnv 0 0 "probe" [] sampleState).trace
      = recordsOf (fileHandler machineEnv (effectiveOption [])).ref sampleState.trace ∧
     recordsOf (consoleHandler machineEnv).ref
        (sampleLogger.Debug machineEnv 0 0 "probe" [] sampleState).trace
      = recordsOf (consoleHandler machineEnv).ref sampleState.trace ++
        [(NewRecord 0 LevelDebug "probe" 0).AddAttrs []]) :=
  ⟨rfl, (leveled_methods_delivery machineEnv [] (init (Machine.boot [])) sampleLogger
    sampleState rfl sampleState 0 0 "probe" []).2.1.2⟩

/-- Witness for C7. With `logs` a regular file before construction,
`createHandlers` returns, `Stat` afterwards reports a directory there and no
file entry is left at the location. With nothing at `logs`, `createHandlers`
returns and `Stat` afterwards reports a directory. -/
theorem createHandlers_provisions_directory_witness :
    (FS.resolve (init (Machine.boot fileAtLogs)).world.fs (segments (effectiveOption []).dir)
        = .ok (["logs"], Node.file "old content") ∧
      createHandlers machineEnv [] (init (Machine.boot fileAtLogs))
        = .ok (builtinHandlers machineEnv defaultOption, replacedState) ∧
      (∀ c1, ((["logs"] : Path), Node.file c1) ∉ replacedState.world.fs) ∧
      FS.Stat "logs" replacedState.world.fs = (some { IsDir := true }, none)) ∧
    (FS.Stat (effectiveOption []).dir (init (Machine.boot [])).world.fs
        = (none, some Errno.ENOENT) ∧
      createHandlers machineEnv [] (init (Machine.boot []))
        = .ok (builtinHandlers machineEnv defaultOption, sampleState) ∧
      FS.Stat "logs" sampleState.world.fs = (some { IsDir := true }, none)) :=
  have hfile := (createHandlers_provisions_directory machineEnv rfl rfl rfl []
    (init (Machine.boot fileAtLogs))).2.2.1 ["logs"] "old content" rfl
  have habsent := (createHandlers_provisions_directory machineEnv rfl rfl rfl []
    (init (Machine.boot []))).2.1 (by decide)
  ⟨⟨rfl, hfile.2.1, hfile.2.2.1, hfile.2.2.2 (by decide)⟩,
   ⟨by decide, habsent.1, (habsent.2 (by decide)).1⟩⟩

/-- How `Stat` answers on some path strings: a trailing slash or a further name
after a regular file gives `ENOTDIR`; `..` leads back to the parent; a missing
name gives `ENOENT`, also under a trailing slash; the empty string gives
`ENOENT`; a string with a zero byte gives `EINVAL`. -/
theorem stat_on_path_strings :
    FS.Stat "logs/" fileAtLogs = (none, some Errno.ENOTDIR) ∧
    FS.Stat "logs/." fileAtLogs = (none, some Errno.ENOTDIR) ∧
    FS.Stat "logs/.." fileAtLogs = (none, some Errno.ENOTDIR) ∧
    FS.Stat "logs" fileAtLogs = (some { IsDir := false }, none) ∧
    FS.Stat "./logs" fileAtLogs = (some { IsDir := false }, none) ∧
    FS.Stat "/logs" fileAtLogs = (some { IsDir := false }, none) ∧
    FS.Stat "x/../logs" fileAtLogs = (none, some Errno.ENOENT) ∧
    FS.Stat "logs/.." [(["logs"], Node.dir)] = (some { IsDir := true }, none) ∧
    FS.Stat "logs/../logs/" [(["logs"], Node.dir)] = (some { IsDir := true }, none) ∧
    FS.Stat "nothing/" [] = (none, some Errno.ENOENT) ∧
    FS.Stat "" [] = (none, some Errno.ENOENT) ∧
    FS.Stat (String.mk ['a', Char.ofNat 0]) [] = (none, some Errno.EINVAL) := by
  decide

set_option maxRecDepth 100000 in
/-- A name of 256 bytes is longer than `NAME_MAX`: `Stat` fails with
`ENAMETOOLONG`, which is not "does not exist", and `createHandlers` panics. -/
theorem stat_on_long_name :
    FS.Stat (String.mk (List.replicate 256 'a')) [] = (none, some Errno.ENAMETOOLONG) ∧
    (createHandlers machineEnv [WithDir (String.mk (List.replicate 256 'a'))]
        (init (Machine.boot []))).toOption.isNone = true := by
  decide

/-- A failing sink on the machine: with the console sink broken, an `Info`
call of the logger `NewSlogger()` built gives no sink anything, makes exactly
one diagnostic emission, and returns. -/
theorem broken_console_reports_once :
    ((sampleLogger.Info machineEnv 0 0 "started" []
        { sampleState with
          world := { sampleState.world with broken := [(consoleHandler machineEnv).ref] } }
      ).world.received.length,
     (sampleLogger.Info machineEnv 0 0 "started" []
        { sampleState with
          world := { sampleState.world with broken := [(consoleHandler machineEnv).ref] } }
      ).world.emitted.map (fun d => d.1))
      = (0, ["Failed to handle log record"]) := by
  decide

/-- Witness for C10: two default-valued options, against no options. -/
theorem defaults_round_trip_witness :
    (∀ f ∈ [WithMaxAge 7, WithDir "logs"],
      f = WithDir "logs" ∨ f = WithFile "app.log" ∨ f = WithMaxSize 10 ∨
        f = WithMaxBackups 3 ∨ f = WithMaxAge 7) ∧
    createHandlers machineEnv [WithMaxAge 7, WithDir "logs"] (init (Machine.boot fileAtLogs))
      = createHandlers machineEnv [] (init (Machine.boot fileAtLogs)) :=
  have hdef : ∀ f ∈ [WithMaxAge 7, WithDir "logs"],
      f = WithDir "logs" ∨ f = WithFile "app.log" ∨ f = WithMaxSize 10 ∨
        f = WithMaxBackups 3 ∨ f = WithMaxAge 7 := by
    intro f hf
    simp only [List.mem_cons, List.mem_singleton, List.not_mem_nil, or_false] at hf
    rcases hf with h | h
    · subst h; exact Or.inr (Or.inr (Or.inr (Or.inr rfl)))
    · subst h; exact Or.inl rfl
  ⟨hdef, (defaults_round_trip machineEnv [WithMaxAge 7, WithDir "logs"] hdef
    (init (Machine.boot fileAtLogs))).2.1⟩

end Instances

end SimpleSlogger
